import Mathlib

/-!
Verification of the envelope-encryption core of this repository
(`packages/crypto/src/index.ts`): the master-key loader `getMasterKey`,
the field validator `validateHex`, and the envelope operations
`encryptEnvelope` (seal) and `decryptEnvelope` (open) over the
`TxSecureRecord` data shape (`packages/crypto/src/types.ts`).

Modelling conventions:
* Bytes are natural numbers below 256; byte strings are `List Nat`.
* `process.env.MASTER_KEY_HEX` is an explicit `Option String` argument.
* Randomness (`randomBytes`) and the generated id / timestamp
  (`randomUUID`, `new Date().toISOString()`) are explicit arguments.
* Thrown JavaScript errors become `Except CryptoError` results, one
  constructor per distinct throw site of the source.
* The AES-256-GCM primitive of the Node `crypto` module is not part of
  this repository; it is modelled from the spec as a black-box AEAD
  (an executable stand-in keystream cipher plus an authentication tag
  recomputed and compared on decryption).
* `JSON.stringify` / `JSON.parse` are likewise external; they are
  modelled from the spec as a canonical injective byte serialization
  of structured values together with its executable parser.
-/

/-! ## Hex encoding and decoding

The source validates hex fields with the regular expression
`^[0-9a-fA-F]+$` and decodes them with `Buffer.from(hex, "hex")`,
which consumes two-character pairs and silently drops a trailing
unpaired character. -/

/-- Value of one hexadecimal digit character, `none` for a non-hex character. -/
def hexVal? (c : Char) : Option Nat :=
  if 48 ≤ c.toNat ∧ c.toNat ≤ 57 then some (c.toNat - 48)
  else if 97 ≤ c.toNat ∧ c.toNat ≤ 102 then some (c.toNat - 87)
  else if 65 ≤ c.toNat ∧ c.toNat ≤ 70 then some (c.toNat - 55)
  else none

/-- Whether a character belongs to the alphabet of `^[0-9a-fA-F]+$`. -/
def isHexChar (c : Char) : Bool :=
  (hexVal? c).isSome

/-- The test `^[0-9a-fA-F]+$`: nonempty and every character is a hex digit. -/
def isHexString (s : String) : Bool :=
  !s.data.isEmpty && s.data.all isHexChar

/-- Decoding of `Buffer.from(hex, "hex")` on a character list: decode two-character
pairs into bytes, stop at the first invalid pair, drop a trailing
unpaired character. -/
def hexDecodeList : List Char → List Nat
  | c1 :: c2 :: rest =>
    match hexVal? c1, hexVal? c2 with
    | some h, some l => (16 * h + l) :: hexDecodeList rest
    | _, _ => []
  | _ => []

/-- Decoding of `Buffer.from(hex, "hex")` on a string. -/
def hexDecode (s : String) : List Nat :=
  hexDecodeList s.data

/-- Lower-case hex digit character for a value below 16
(`Buffer.toString("hex")` emits lower case). -/
def hexDigitChar (n : Nat) : Char :=
  if n < 10 then Char.ofNat (48 + n) else Char.ofNat (87 + n)

/-- Two-character lower-case hex encoding of one byte. -/
def hexEncodeByte (b : Nat) : List Char :=
  [hexDigitChar (b / 16 % 16), hexDigitChar (b % 16)]

/-- Character list of `Buffer.toString("hex")`. -/
def hexEncodeList : List Nat → List Char
  | [] => []
  | b :: bs => hexEncodeByte b ++ hexEncodeList bs

/-- Encoding of `Buffer.toString("hex")`: two lower-case hex characters per byte. -/
def hexEncode (bs : List Nat) : String :=
  String.mk (hexEncodeList bs)

/-- All elements are genuine byte values. -/
def allBytes (bs : List Nat) : Bool :=
  bs.all (fun b => decide (b < 256))

theorem hexVal?_lt {c : Char} {n : Nat} (h : hexVal? c = some n) : n < 16 := by
  unfold hexVal? at h
  split at h
  · next hc => injection h with h; omega
  · split at h
    · next hc => injection h with h; omega
    · split at h
      · next hc => injection h with h; omega
      · exact absurd h (by simp)

theorem hexVal?_hexDigitChar {n : Nat} (h : n < 16) :
    hexVal? (hexDigitChar n) = some n := by
  interval_cases n <;> decide

theorem isHexChar_hexDigitChar {n : Nat} (h : n < 16) :
    isHexChar (hexDigitChar n) = true := by
  simp [isHexChar, hexVal?_hexDigitChar h]

theorem allBytes_cons {b : Nat} {bs : List Nat} :
    allBytes (b :: bs) = (decide (b < 256) && allBytes bs) := rfl

theorem hexDecodeList_hexEncodeList {bs : List Nat} (h : allBytes bs = true) :
    hexDecodeList (hexEncodeList bs) = bs := by
  induction bs with
  | nil => rfl
  | cons b bs ih =>
    rw [allBytes_cons, Bool.and_eq_true] at h
    obtain ⟨hb, hbs⟩ := h
    have hb' : b < 256 := of_decide_eq_true hb
    have h1 : b / 16 % 16 < 16 := Nat.mod_lt _ (by omega)
    have h2 : b % 16 < 16 := Nat.mod_lt _ (by omega)
    simp only [hexEncodeList, hexEncodeByte, List.cons_append, List.nil_append,
      hexDecodeList, hexVal?_hexDigitChar h1, hexVal?_hexDigitChar h2, ih hbs]
    have hd : b / 16 < 16 := by omega
    rw [Nat.mod_eq_of_lt hd]
    congr 1
    · omega
    · exact ih hbs

theorem hexDecode_hexEncode {bs : List Nat} (h : allBytes bs = true) :
    hexDecode (hexEncode bs) = bs := by
  simpa [hexDecode, hexEncode] using hexDecodeList_hexEncodeList h

theorem hexEncodeList_length (bs : List Nat) :
    (hexEncodeList bs).length = 2 * bs.length := by
  induction bs with
  | nil => rfl
  | cons b bs ih => simp [hexEncodeList, hexEncodeByte, ih]; omega

theorem hexEncodeList_all_hex (bs : List Nat) :
    (hexEncodeList bs).all isHexChar = true := by
  induction bs with
  | nil => rfl
  | cons b bs ih =>
    have h1 : b / 16 % 16 < 16 := Nat.mod_lt _ (by omega)
    have h2 : b % 16 < 16 := Nat.mod_lt _ (by omega)
    simp [hexEncodeList, hexEncodeByte, List.all_cons, ih,
      isHexChar_hexDigitChar h1, isHexChar_hexDigitChar h2]

theorem isHexString_hexEncode {bs : List Nat} (h : bs ≠ []) :
    isHexString (hexEncode bs) = true := by
  cases bs with
  | nil => exact absurd rfl h
  | cons b bs =>
    simp only [isHexString, hexEncode]
    refine (Bool.and_eq_true _ _).mpr ⟨?_, hexEncodeList_all_hex _⟩
    simp [hexEncodeList, hexEncodeByte]

theorem hexDecodeList_lt : ∀ cs : List Char, allBytes (hexDecodeList cs) = true
  | [] => rfl
  | [_] => rfl
  | c1 :: c2 :: rest => by
    cases hh : hexVal? c1 with
    | none => simp only [hexDecodeList, hh]; rfl
    | some h =>
      cases hl : hexVal? c2 with
      | none => simp only [hexDecodeList, hh, hl]; rfl
      | some l =>
        have h1 := hexVal?_lt hh
        have h2 := hexVal?_lt hl
        simp only [hexDecodeList, hh, hl]
        rw [allBytes_cons, Bool.and_eq_true]
        exact ⟨decide_eq_true (by omega), hexDecodeList_lt rest⟩

/-- The encoding `hexEncode` is injective on lists of genuine bytes. -/
theorem hexEncode_inj {bs1 bs2 : List Nat} (h1 : allBytes bs1 = true)
    (h2 : allBytes bs2 = true) (h : hexEncode bs1 = hexEncode bs2) : bs1 = bs2 := by
  have := congrArg hexDecode h
  rwa [hexDecode_hexEncode h1, hexDecode_hexEncode h2] at this

/-! ## Error taxonomy

One constructor per distinct throw site of the source. -/

/-- Errors thrown by the crypto module; constructors mirror the
distinct `throw new Error(...)` sites of the source. -/
inductive CryptoError where
  /-- Thrown as "MASTER_KEY_HEX environment variable is missing" (`ConfigError`: missing key). -/
  | masterKeyMissing
  /-- Thrown as "MASTER_KEY_HEX must be a valid hex string" (`ConfigError`: malformed hex). -/
  | masterKeyNotHex
  /-- Thrown as "MASTER_KEY_HEX must decode to exactly 32 bytes, got N bytes"
  (`ConfigError`: wrong key length). -/
  | masterKeyWrongLength (got : Nat)
  /-- Thrown as "Validation failed: <field> ..." — the `ValidationError` kind,
  carrying the name of the offending field. -/
  | validationFailed (field : String)
  /-- Thrown as "DEK unwrapping failed: invalid auth tag or tampered data" — the `UnwrapError` kind. -/
  | dekUnwrapFailed
  /-- Thrown as "Payload decryption failed: invalid auth tag or tampered ciphertext" —
  the `DecryptError` kind. -/
  | payloadDecryptFailed
  /-- Thrown as "Failed to parse decrypted payload as JSON" — the `FormatError` kind. -/
  | payloadParseFailed
  deriving DecidableEq, Repr

instance {ε α : Type} [DecidableEq ε] [DecidableEq α] : DecidableEq (Except ε α) :=
  fun x y =>
    match x, y with
    | .error a, .error b => decidable_of_iff (a = b) (by simp)
    | .error _, .ok _ => isFalse (by simp)
    | .ok _, .error _ => isFalse (by simp)
    | .ok a, .ok b => decidable_of_iff (a = b) (by simp)

/-! ## Master key loader (`getMasterKey`) -/

/-- Source function `getMasterKey`: read `MASTER_KEY_HEX` from the
environment, reject a missing (or, being falsy in JavaScript, empty)
value, reject a value failing `^[0-9a-fA-F]+$`, decode it and reject a
decoded length other than 32. -/
def getMasterKey (env : Option String) : Except CryptoError (List Nat) :=
  match env with
  | none => .error .masterKeyMissing
  | some s =>
    if s.data.isEmpty then .error .masterKeyMissing
    else if !isHexString s then .error .masterKeyNotHex
    else
      let masterKey := hexDecode s
      if masterKey.length ≠ 32 then .error (.masterKeyWrongLength masterKey.length)
      else .ok masterKey

theorem getMasterKey_ok_allBytes {env : Option String} {mk : List Nat}
    (h : getMasterKey env = .ok mk) : allBytes mk = true ∧ mk.length = 32 := by
  unfold getMasterKey at h
  match env with
  | none => exact absurd h (by simp)
  | some s =>
    simp only at h
    split at h
    · exact absurd h (by simp)
    · split at h
      · exact absurd h (by simp)
      · split at h
        · exact absurd h (by simp)
        · next hl =>
          injection h with h
          subst h
          exact ⟨hexDecodeList_lt _, by omega⟩

/-! ## AEAD primitive

Modelled from the spec: the Authenticated Cipher Primitive (AES-256-GCM
from the Node `crypto` module, not part of this repository) is, quoting the spec, "treated as
a black-box capability: encrypt(key, nonce, plaintext) → (ciphertext,
tag); decrypt(key, nonce, ciphertext, tag) → plaintext or failure".
The executable stand-in is a keystream cipher (ciphertext has the
length of the plaintext and decryption inverts encryption under the same key
and nonce) together with a 16-byte authentication tag recomputed from
key, nonce and ciphertext and compared on decryption, GHASH-like in
that any single-byte change of ciphertext or tag changes the comparison
outcome. -/

/-- Keystream byte `i` derived from a 32-byte key and a 12-byte nonce. -/
def ksByte (key nonce : List Nat) (i : Nat) : Nat :=
  (key.getD (i % 32) 0 + nonce.getD (i % 12) 0) % 256

/-- Stream encryption of the bytes of `pt`, starting at keystream offset `i`. -/
def streamEncFrom (key nonce : List Nat) : Nat → List Nat → List Nat
  | _, [] => []
  | i, b :: bs => (b + ksByte key nonce i) % 256 :: streamEncFrom key nonce (i + 1) bs

/-- Stream decryption, inverse of `streamEncFrom` on byte values. -/
def streamDecFrom (key nonce : List Nat) : Nat → List Nat → List Nat
  | _, [] => []
  | i, b :: bs => (b + 256 - ksByte key nonce i) % 256 :: streamDecFrom key nonce (i + 1) bs

/-- Sum of the elements of `l` lying at positions congruent to `j`
modulo 16, where the head of `l` is at position `i`. -/
def sumAt (j : Nat) : Nat → List Nat → Nat
  | _, [] => 0
  | i, b :: bs => (if i % 16 = j then b else 0) + sumAt j (i + 1) bs

/-- The 16-byte authentication tag over key, nonce and ciphertext. -/
def aesGcmTag (key nonce ct : List Nat) : List Nat :=
  (List.range 16).map fun j =>
    (sumAt j 0 key + nonce.getD (j % 12) 0 + sumAt j 0 ct) % 256

/-- AEAD encryption: ciphertext together with its authentication tag. -/
def aesGcmEncrypt (key nonce pt : List Nat) : List Nat × List Nat :=
  let ct := streamEncFrom key nonce 0 pt
  (ct, aesGcmTag key nonce ct)

/-- AEAD verify-then-decrypt: recompute the tag over key, nonce and
ciphertext, fail on mismatch, otherwise return the decrypted bytes.
This mirrors `createDecipheriv` + `setAuthTag` + `final` throwing on an
invalid authentication tag. -/
def aesGcmDecrypt (key nonce ct tag : List Nat) : Option (List Nat) :=
  if tag = aesGcmTag key nonce ct then some (streamDecFrom key nonce 0 ct) else none

theorem streamEncFrom_length (key nonce : List Nat) :
    ∀ (i : Nat) (pt : List Nat), (streamEncFrom key nonce i pt).length = pt.length
  | _, [] => rfl
  | i, _ :: bs => by
    simp only [streamEncFrom, List.length_cons, streamEncFrom_length key nonce (i + 1) bs]

theorem allBytes_streamEncFrom (key nonce : List Nat) :
    ∀ (i : Nat) (pt : List Nat), allBytes (streamEncFrom key nonce i pt) = true
  | _, [] => rfl
  | i, b :: bs => by
    simp only [streamEncFrom]
    rw [allBytes_cons, Bool.and_eq_true]
    exact ⟨decide_eq_true (Nat.mod_lt _ (by omega)),
      allBytes_streamEncFrom key nonce (i + 1) bs⟩

theorem streamDecFrom_streamEncFrom (key nonce : List Nat) :
    ∀ (i : Nat) (pt : List Nat), allBytes pt = true →
      streamDecFrom key nonce i (streamEncFrom key nonce i pt) = pt
  | _, [], _ => rfl
  | i, b :: bs, h => by
    rw [allBytes_cons, Bool.and_eq_true] at h
    have hb : b < 256 := of_decide_eq_true h.1
    have hk : ksByte key nonce i < 256 := Nat.mod_lt _ (by omega)
    simp only [streamEncFrom, streamDecFrom]
    rw [streamDecFrom_streamEncFrom key nonce (i + 1) bs h.2]
    congr 1
    omega

theorem streamEncFrom_getD (key nonce : List Nat) :
    ∀ (i j : Nat) (pt : List Nat), j < pt.length →
      (streamEncFrom key nonce i pt).getD j 0 =
        (pt.getD j 0 + ksByte key nonce (i + j)) % 256
  | _, _, [], h => absurd h (by simp)
  | i, 0, b :: bs, _ => by
    simp [streamEncFrom, List.getD_cons_zero]
  | i, j + 1, b :: bs, h => by
    simp only [streamEncFrom, List.getD_cons_succ]
    rw [streamEncFrom_getD key nonce (i + 1) j bs (by simpa using h),
      show i + 1 + j = i + (j + 1) from by omega]

theorem allBytes_getD {l : List Nat} {i : Nat} (h : allBytes l = true)
    (hi : i < l.length) : l.getD i 0 < 256 := by
  rw [List.getD_eq_getElem _ _ hi]
  rw [allBytes, List.all_eq_true] at h
  exact of_decide_eq_true (h _ (l.getElem_mem hi))

theorem getD_set_self {l : List Nat} {i v : Nat} (h : i < l.length) :
    (l.set i v).getD i 0 = v := by
  rw [List.getD_eq_getElem _ _ (by simpa using h)]
  simp

theorem set_ne_self {l : List Nat} {i v : Nat} (hi : i < l.length)
    (hne : v ≠ l.getD i 0) : l.set i v ≠ l := by
  intro heq
  have := congrArg (fun t => t.getD i 0) heq
  simp only at this
  rw [getD_set_self hi] at this
  exact hne this

theorem sumAt_set_eq (j v : Nat) :
    ∀ (s i : Nat) (l : List Nat), i < l.length → (s + i) % 16 = j →
      sumAt j s (l.set i v) + l.getD i 0 = sumAt j s l + v
  | _, _, [], h, _ => absurd h (by simp)
  | s, 0, b :: bs, _, hj => by
    have hs : s % 16 = j := by simpa using hj
    simp only [List.set, sumAt, List.getD_cons_zero]
    rw [if_pos hs, if_pos hs]
    omega
  | s, i + 1, b :: bs, h, hj => by
    have := sumAt_set_eq j v (s + 1) i bs (by simpa using h)
      (by rw [show s + 1 + i = s + (i + 1) from by omega]; exact hj)
    simp only [List.set, sumAt, List.getD_cons_succ]
    omega

theorem aesGcmTag_length (key nonce ct : List Nat) :
    (aesGcmTag key nonce ct).length = 16 := by
  simp [aesGcmTag]

theorem allBytes_aesGcmTag (key nonce ct : List Nat) :
    allBytes (aesGcmTag key nonce ct) = true := by
  simp only [allBytes, aesGcmTag, List.all_eq_true]
  intro x hx
  simp only [List.mem_map] at hx
  obtain ⟨j, _, rfl⟩ := hx
  exact decide_eq_true (Nat.mod_lt _ (by omega))

theorem aesGcmTag_getD (key nonce ct : List Nat) {j : Nat} (h : j < 16) :
    (aesGcmTag key nonce ct).getD j 0 =
      (sumAt j 0 key + nonce.getD (j % 12) 0 + sumAt j 0 ct) % 256 := by
  rw [List.getD_eq_getElem _ _ (by simpa [aesGcmTag] using h)]
  simp [aesGcmTag]

/-- Changing any single byte of the ciphertext changes the tag. -/
theorem aesGcmTag_set_ct_ne {key nonce ct : List Nat} {i v : Nat}
    (hi : i < ct.length) (hv : v < 256) (hct : allBytes ct = true)
    (hne : v ≠ ct.getD i 0) :
    aesGcmTag key nonce (ct.set i v) ≠ aesGcmTag key nonce ct := by
  intro heq
  have hj : i % 16 < 16 := Nat.mod_lt _ (by omega)
  have hgd := congrArg (fun l => l.getD (i % 16) 0) heq
  simp only at hgd
  rw [aesGcmTag_getD _ _ _ hj, aesGcmTag_getD _ _ _ hj] at hgd
  have hsum := sumAt_set_eq (i % 16) v 0 i ct hi (by simp)
  have hold : ct.getD i 0 < 256 := allBytes_getD hct hi
  omega

theorem aesGcmDecrypt_encrypt {key nonce pt : List Nat} (h : allBytes pt = true) :
    aesGcmDecrypt key nonce (streamEncFrom key nonce 0 pt)
      (aesGcmTag key nonce (streamEncFrom key nonce 0 pt)) = some pt := by
  rw [aesGcmDecrypt, if_pos rfl, streamDecFrom_streamEncFrom key nonce 0 pt h]

/-! ## Structured payload values and their serialization

Modelled from the spec: `JSON.stringify` / `JSON.parse` (external
library calls, not part of this repository) are the "canonical
byte encoding" of the spec of a structured value and its inverse deserialization.
The structured values form the JSON value tree (null, booleans,
numbers, strings, arrays, objects); the executable canonical encoding
below is injective, and its parser is a verified left inverse, which
is all `open(seal(...))` relies on. -/

/-- JSON-like structured payload values. -/
inductive JsonVal where
  | null
  | bool (b : Bool)
  | num (n : Int)
  | str (s : String)
  | arr (elems : List JsonVal)
  | obj (fields : List (String × JsonVal))

/-- Terminated base-255 encoding of a natural number: little-endian
digits below 255, closed by the byte 255. -/
def encNat (n : Nat) : List Nat :=
  if _h : n = 0 then [255] else (n % 255) :: encNat (n / 255)
termination_by n
decreasing_by exact Nat.div_lt_self (by omega) (by omega)

/-- Read back a `encNat`-encoded natural, returning the remainder. -/
def decNat : List Nat → Option (Nat × List Nat)
  | [] => none
  | b :: bs =>
    if b = 255 then some (0, bs)
    else if b < 255 then
      (decNat bs).map fun mr => (b + 255 * mr.1, mr.2)
    else none

/-- Byte encoding of one character (its code point). -/
def encChar (c : Char) : List Nat :=
  encNat c.toNat

/-- Byte encoding of a character list. -/
def encChars : List Char → List Nat
  | [] => []
  | c :: cs => encChar c ++ encChars cs

/-- Byte encoding of a string: length then character code points. -/
def encStr (s : String) : List Nat :=
  encNat s.data.length ++ encChars s.data

/-- Read back `k` characters. -/
def decChars : Nat → List Nat → Option (List Char × List Nat)
  | 0, bytes => some ([], bytes)
  | k + 1, bytes =>
    (decNat bytes).bind fun nr =>
      (decChars k nr.2).map fun cr => (Char.ofNat nr.1 :: cr.1, cr.2)

/-- Read back a string, returning the remainder. -/
def decStr (bytes : List Nat) : Option (String × List Nat) :=
  (decNat bytes).bind fun kr =>
    (decChars kr.1 kr.2).map fun cr => (String.mk cr.1, cr.2)

mutual

/-- Canonical injective byte serialization of a structured value. -/
def encodeJson : JsonVal → List Nat
  | .null => [0]
  | .bool b => [1, if b then 1 else 0]
  | .num n => 2 :: (if n < 0 then 1 else 0) :: encNat n.natAbs
  | .str s => 3 :: encStr s
  | .arr xs => 4 :: (encNat xs.length ++ encodeJsonList xs)
  | .obj kvs => 5 :: (encNat kvs.length ++ encodeJsonObj kvs)

/-- Serialization of the elements of an array. -/
def encodeJsonList : List JsonVal → List Nat
  | [] => []
  | v :: vs => encodeJson v ++ encodeJsonList vs

/-- Serialization of the fields of an object. -/
def encodeJsonObj : List (String × JsonVal) → List Nat
  | [] => []
  | (k, v) :: kvs => encStr k ++ (encodeJson v ++ encodeJsonObj kvs)

end

mutual

/-- Structural size of a value, a lower bound for the parser fuel. -/
def jsize : JsonVal → Nat
  | .arr xs => jsizeList xs + 1
  | .obj kvs => jsizeObj kvs + 1
  | _ => 1

/-- Total size of array elements. -/
def jsizeList : List JsonVal → Nat
  | [] => 0
  | v :: vs => jsize v + jsizeList vs

/-- Total size of object field values. -/
def jsizeObj : List (String × JsonVal) → Nat
  | [] => 0
  | (_, v) :: kvs => jsize v + jsizeObj kvs

end

mutual

/-- Fuel-bounded parser for the canonical serialization. -/
def decodeJson : Nat → List Nat → Option (JsonVal × List Nat)
  | 0, _ => none
  | fuel + 1, bytes =>
    match bytes with
    | 0 :: rest => some (.null, rest)
    | 1 :: b :: rest =>
      if b = 1 then some (.bool true, rest)
      else if b = 0 then some (.bool false, rest)
      else none
    | 2 :: sgn :: rest =>
      (decNat rest).bind fun mr =>
        if sgn = 1 then some (.num (-(mr.1 : Int)), mr.2)
        else if sgn = 0 then some (.num (mr.1 : Int), mr.2)
        else none
    | 3 :: rest =>
      (decStr rest).map fun sr => (.str sr.1, sr.2)
    | 4 :: rest =>
      (decNat rest).bind fun lr =>
        (decodeJsonList fuel lr.1 lr.2).map fun ar => (.arr ar.1, ar.2)
    | 5 :: rest =>
      (decNat rest).bind fun lr =>
        (decodeJsonObj fuel lr.1 lr.2).map fun br => (.obj br.1, br.2)
    | _ => none
termination_by fuel _ => (fuel, 0)

/-- Parse `n` consecutive array elements. -/
def decodeJsonList : Nat → Nat → List Nat → Option (List JsonVal × List Nat)
  | _, 0, bytes => some ([], bytes)
  | fuel, n + 1, bytes =>
    (decodeJson fuel bytes).bind fun vr =>
      (decodeJsonList fuel n vr.2).map fun sr => (vr.1 :: sr.1, sr.2)
termination_by fuel n _ => (fuel, n + 1)

/-- Parse `n` consecutive object fields. -/
def decodeJsonObj : Nat → Nat → List Nat → Option (List (String × JsonVal) × List Nat)
  | _, 0, bytes => some ([], bytes)
  | fuel, n + 1, bytes =>
    (decStr bytes).bind fun kr =>
      (decodeJson fuel kr.2).bind fun vr =>
        (decodeJsonObj fuel n vr.2).map fun sr => ((kr.1, vr.1) :: sr.1, sr.2)
termination_by fuel n _ => (fuel, n + 1)

end

/-- Parse of a complete serialized value, as `JSON.parse`: no remainder allowed. -/
def parseJson (bytes : List Nat) : Option JsonVal :=
  match decodeJson (bytes.length + 1) bytes with
  | some (v, []) => some v
  | _ => none

theorem decNat_encNat : ∀ (n : Nat) (rest : List Nat),
    decNat (encNat n ++ rest) = some (n, rest)
  | n, rest => by
    rw [encNat]
    split
    · next h => subst h; simp [decNat]
    · next h =>
      have hd : n % 255 < 255 := Nat.mod_lt _ (by omega)
      simp only [List.cons_append, List.append_eq, decNat,
        if_neg (show ¬n % 255 = 255 from by omega), if_pos hd,
        decNat_encNat (n / 255) rest, Option.map_some', Nat.mod_add_div]
termination_by n _ => n
decreasing_by exact Nat.div_lt_self (by omega) (by omega)

theorem allBytes_encNat : ∀ n : Nat, allBytes (encNat n) = true
  | n => by
    rw [encNat]
    split
    · rfl
    · next h =>
      rw [allBytes_cons, Bool.and_eq_true]
      exact ⟨decide_eq_true (by have := Nat.mod_lt n (show 0 < 255 from by omega); omega),
        allBytes_encNat (n / 255)⟩
termination_by n => n
decreasing_by exact Nat.div_lt_self (by omega) (by omega)

theorem encNat_length_pos (n : Nat) : 0 < (encNat n).length := by
  rw [encNat]
  split <;> simp

theorem allBytes_append {a b : List Nat} :
    allBytes (a ++ b) = (allBytes a && allBytes b) := by
  simp [allBytes, List.all_append]

theorem decChars_encChars : ∀ (cs : List Char) (rest : List Nat),
    decChars cs.length (encChars cs ++ rest) = some (cs, rest)
  | [], _ => rfl
  | c :: cs, rest => by
    simp only [encChars, encChar, List.length_cons, List.append_assoc, decChars,
      decNat_encNat, Option.some_bind, decChars_encChars cs rest, Option.map_some',
      Char.ofNat_toNat]

theorem decStr_encStr (s : String) (rest : List Nat) :
    decStr (encStr s ++ rest) = some (s, rest) := by
  simp only [encStr, List.append_assoc, decStr, decNat_encNat, Option.some_bind,
    decChars_encChars s.data rest, Option.map_some']

theorem allBytes_encChars : ∀ cs : List Char, allBytes (encChars cs) = true
  | [] => rfl
  | c :: cs => by
    simp only [encChars, encChar, allBytes_append, Bool.and_eq_true]
    exact ⟨allBytes_encNat _, allBytes_encChars cs⟩

theorem allBytes_encStr (s : String) : allBytes (encStr s) = true := by
  simp only [encStr, allBytes_append, Bool.and_eq_true]
  exact ⟨allBytes_encNat _, allBytes_encChars _⟩

theorem jsize_pos (v : JsonVal) : 0 < jsize v := by
  cases v <;> simp [jsize]

mutual

theorem jsize_le_encodeJson : ∀ v : JsonVal, jsize v ≤ (encodeJson v).length
  | .null => by simp [jsize, encodeJson]
  | .bool b => by simp [jsize, encodeJson]
  | .num n => by simp [jsize, encodeJson]
  | .str s => by simp [jsize, encodeJson]
  | .arr xs => by
    have h1 := jsizeList_le_encodeJsonList xs
    have h2 := encNat_length_pos xs.length
    simp only [jsize, encodeJson, List.length_cons, List.length_append]
    omega
  | .obj kvs => by
    have h1 := jsizeObj_le_encodeJsonObj kvs
    have h2 := encNat_length_pos kvs.length
    simp only [jsize, encodeJson, List.length_cons, List.length_append]
    omega

theorem jsizeList_le_encodeJsonList : ∀ vs : List JsonVal,
    jsizeList vs ≤ (encodeJsonList vs).length
  | [] => Nat.le_refl 0
  | v :: vs => by
    have h1 := jsize_le_encodeJson v
    have h2 := jsizeList_le_encodeJsonList vs
    simp only [jsizeList, encodeJsonList, List.length_append]
    omega

theorem jsizeObj_le_encodeJsonObj : ∀ kvs : List (String × JsonVal),
    jsizeObj kvs ≤ (encodeJsonObj kvs).length
  | [] => Nat.le_refl 0
  | (k, v) :: kvs => by
    have h1 := jsize_le_encodeJson v
    have h2 := jsizeObj_le_encodeJsonObj kvs
    simp only [jsizeObj, encodeJsonObj, List.length_append]
    omega

end

mutual

theorem decodeJson_encodeJson : ∀ (v : JsonVal) (fuel : Nat) (rest : List Nat),
    jsize v ≤ fuel → decodeJson fuel (encodeJson v ++ rest) = some (v, rest)
  | v, 0, _, h => absurd h (by have := jsize_pos v; omega)
  | .null, fuel + 1, rest, _ => by
    simp [encodeJson, decodeJson]
  | .bool b, fuel + 1, rest, _ => by
    cases b <;> simp [encodeJson, decodeJson]
  | .num n, fuel + 1, rest, _ => by
    by_cases hn : n < 0
    · have h3 : -((n.natAbs : Nat) : Int) = n := by omega
      simp only [encodeJson, if_pos hn, List.cons_append, decodeJson,
        decNat_encNat, Option.some_bind]
      rw [if_pos trivial, h3]
    · have h3 : ((n.natAbs : Nat) : Int) = n := by omega
      simp only [encodeJson, if_neg hn, List.cons_append, decodeJson,
        decNat_encNat, Option.some_bind]
      rw [h3, if_neg (show ¬(0 : Nat) = 1 from by omega), if_pos trivial]
  | .str s, fuel + 1, rest, _ => by
    simp only [encodeJson, List.cons_append, decodeJson, decStr_encStr,
      Option.map_some']
  | .arr xs, fuel + 1, rest, h => by
    have hsz : jsizeList xs ≤ fuel := by
      simp only [jsize] at h; omega
    simp only [encodeJson, List.cons_append, List.append_assoc, decodeJson,
      decNat_encNat, Option.some_bind,
      decodeJsonList_encodeJsonList xs fuel rest hsz, Option.map_some']
  | .obj kvs, fuel + 1, rest, h => by
    have hsz : jsizeObj kvs ≤ fuel := by
      simp only [jsize] at h; omega
    simp only [encodeJson, List.cons_append, List.append_assoc, decodeJson,
      decNat_encNat, Option.some_bind,
      decodeJsonObj_encodeJsonObj kvs fuel rest hsz, Option.map_some']

theorem decodeJsonList_encodeJsonList : ∀ (vs : List JsonVal) (fuel : Nat) (rest : List Nat),
    jsizeList vs ≤ fuel →
    decodeJsonList fuel vs.length (encodeJsonList vs ++ rest) = some (vs, rest)
  | [], fuel, rest, _ => by simp [decodeJsonList, encodeJsonList]
  | v :: vs, fuel, rest, h => by
    have hv : jsize v ≤ fuel := by
      have := jsize_pos v; simp only [jsizeList] at h; omega
    have hvs : jsizeList vs ≤ fuel := by
      simp only [jsizeList] at h; omega
    cases fuel with
    | zero => exact absurd hv (by have := jsize_pos v; omega)
    | succ fuel =>
      simp only [encodeJsonList, List.length_cons, List.append_assoc, decodeJsonList,
        decodeJson_encodeJson v (fuel + 1) (encodeJsonList vs ++ rest) hv,
        Option.some_bind,
        decodeJsonList_encodeJsonList vs (fuel + 1) rest hvs, Option.map_some']

theorem decodeJsonObj_encodeJsonObj : ∀ (kvs : List (String × JsonVal)) (fuel : Nat)
    (rest : List Nat), jsizeObj kvs ≤ fuel →
    decodeJsonObj fuel kvs.length (encodeJsonObj kvs ++ rest) = some (kvs, rest)
  | [], fuel, rest, _ => by simp [decodeJsonObj, encodeJsonObj]
  | (k, v) :: kvs, fuel, rest, h => by
    have hv : jsize v ≤ fuel := by
      have := jsize_pos v; simp only [jsizeObj] at h; omega
    have hkvs : jsizeObj kvs ≤ fuel := by
      simp only [jsizeObj] at h; omega
    cases fuel with
    | zero => exact absurd hv (by have := jsize_pos v; omega)
    | succ fuel =>
      simp only [encodeJsonObj, List.length_cons, List.append_assoc, decodeJsonObj,
        decStr_encStr, Option.some_bind,
        decodeJson_encodeJson v (fuel + 1) (encodeJsonObj kvs ++ rest) hv,
        decodeJsonObj_encodeJsonObj kvs (fuel + 1) rest hkvs, Option.map_some']

end

theorem parseJson_encodeJson (v : JsonVal) : parseJson (encodeJson v) = some v := by
  have h : jsize v ≤ (encodeJson v).length + 1 := by
    have := jsize_le_encodeJson v; omega
  have hdec := decodeJson_encodeJson v ((encodeJson v).length + 1) [] h
  rw [List.append_nil] at hdec
  simp only [parseJson, hdec]

mutual

theorem allBytes_encodeJson : ∀ v : JsonVal, allBytes (encodeJson v) = true
  | .null => rfl
  | .bool b => by cases b <;> rfl
  | .num n => by
    by_cases hn : n < 0 <;>
      simp [encodeJson, hn, allBytes_cons, allBytes_encNat]
  | .str s => by
    simp only [encodeJson]
    rw [allBytes_cons, Bool.and_eq_true]
    exact ⟨by decide, allBytes_encStr s⟩
  | .arr xs => by
    simp only [encodeJson]
    rw [allBytes_cons, allBytes_append, Bool.and_eq_true, Bool.and_eq_true]
    exact ⟨by decide, allBytes_encNat _, allBytes_encodeJsonList xs⟩
  | .obj kvs => by
    simp only [encodeJson]
    rw [allBytes_cons, allBytes_append, Bool.and_eq_true, Bool.and_eq_true]
    exact ⟨by decide, allBytes_encNat _, allBytes_encodeJsonObj kvs⟩

theorem allBytes_encodeJsonList : ∀ vs : List JsonVal, allBytes (encodeJsonList vs) = true
  | [] => rfl
  | v :: vs => by
    simp only [encodeJsonList]
    rw [allBytes_append, Bool.and_eq_true]
    exact ⟨allBytes_encodeJson v, allBytes_encodeJsonList vs⟩

theorem allBytes_encodeJsonObj : ∀ kvs : List (String × JsonVal),
    allBytes (encodeJsonObj kvs) = true
  | [] => rfl
  | (k, v) :: kvs => by
    simp only [encodeJsonObj]
    rw [allBytes_append, allBytes_append, Bool.and_eq_true, Bool.and_eq_true]
    exact ⟨allBytes_encStr k, allBytes_encodeJson v, allBytes_encodeJsonObj kvs⟩

end

theorem encodeJson_ne_nil (v : JsonVal) : encodeJson v ≠ [] := by
  cases v <;> simp [encodeJson]

/-! ## The sealed record and the envelope operations

These mirror `TxSecureRecord` (`types.ts`) and `validateHex`,
`encryptEnvelope`, `decryptEnvelope` (`index.ts`). -/

/-- Field name constant used in validation error messages. -/
def payloadNonceName : String := "payload_nonce"

/-- Field name constant used in validation error messages. -/
def payloadCtName : String := "payload_ct"

/-- Field name constant used in validation error messages. -/
def payloadTagName : String := "payload_tag"

/-- Field name constant used in validation error messages. -/
def dekWrapNonceName : String := "dek_wrap_nonce"

/-- Field name constant used in validation error messages. -/
def dekWrappedName : String := "dek_wrapped"

/-- Field name constant used in validation error messages. -/
def dekWrapTagName : String := "dek_wrap_tag"

/-- The single supported algorithm discriminant. -/
def algAes256Gcm : String := "AES-256-GCM"

/-- Record type `TxSecureRecord` from `types.ts`: all cryptographic fields are
hex-encoded strings. -/
structure TxSecureRecord where
  id : String
  partyId : String
  createdAt : String
  payload_nonce : String
  payload_ct : String
  payload_tag : String
  dek_wrap_nonce : String
  dek_wrapped : String
  dek_wrap_tag : String
  alg : String
  mk_version : Nat
  deriving DecidableEq, Repr

/-- The random draws consumed by one `encryptEnvelope` call:
`randomBytes(32)` for the DEK and `randomBytes(12)` twice for the
nonces, in source order. -/
structure SealRandomness where
  dek : List Nat
  payloadNonce : List Nat
  dekWrapNonce : List Nat

/-- The draws have the lengths `randomBytes` guarantees and genuine
byte values. -/
def goodRand (rnd : SealRandomness) : Bool :=
  rnd.dek.length == 32 && allBytes rnd.dek &&
  rnd.payloadNonce.length == 12 && allBytes rnd.payloadNonce &&
  rnd.dekWrapNonce.length == 12 && allBytes rnd.dekWrapNonce

/-- Source function `validateHex`: test `^[0-9a-fA-F]+$`, then decode
and compare the byte length against the expected length; the thrown
errors surface as `ValidationError` carrying the field name. -/
def validateHex (hex : String) (expectedBytes : Nat) (fieldName : String) :
    Except CryptoError Unit :=
  if !isHexString hex then .error (.validationFailed fieldName)
  else if (hexDecode hex).length ≠ expectedBytes then .error (.validationFailed fieldName)
  else .ok ()

/-- Step 1 of `decryptEnvelope` (the `try` block): validate the five
fixed-length fields in source order, then the hex format of
`payload_ct`. -/
def validateRecordFields (record : TxSecureRecord) : Except CryptoError Unit :=
  (validateHex record.payload_nonce 12 payloadNonceName).bind fun _ =>
  (validateHex record.payload_tag 16 payloadTagName).bind fun _ =>
  (validateHex record.dek_wrap_nonce 12 dekWrapNonceName).bind fun _ =>
  (validateHex record.dek_wrapped 32 dekWrappedName).bind fun _ =>
  (validateHex record.dek_wrap_tag 16 dekWrapTagName).bind fun _ =>
  if !isHexString record.payload_ct then .error (.validationFailed payloadCtName)
  else .ok ()

/-- Source function `encryptEnvelope` (seal): load the master key, encrypt the
serialized payload under the fresh DEK, wrap the DEK under the master
key, and assemble the record with hex-encoded fields, `alg`
"AES-256-GCM" and `mk_version` 1. -/
def encryptEnvelope (env : Option String) (rnd : SealRandomness)
    (newId timestamp partyId : String) (payload : JsonVal) :
    Except CryptoError TxSecureRecord :=
  match getMasterKey env with
  | .error e => .error e
  | .ok masterKey =>
    let dek := rnd.dek
    let payloadBuffer := encodeJson payload
    let payloadNonce := rnd.payloadNonce
    let payloadCt := streamEncFrom dek payloadNonce 0 payloadBuffer
    let payloadTag := aesGcmTag dek payloadNonce payloadCt
    let dekWrapNonce := rnd.dekWrapNonce
    let dekWrapped := streamEncFrom masterKey dekWrapNonce 0 dek
    let dekWrapTag := aesGcmTag masterKey dekWrapNonce dekWrapped
    .ok {
      id := newId
      partyId := partyId
      createdAt := timestamp
      payload_nonce := hexEncode payloadNonce
      payload_ct := hexEncode payloadCt
      payload_tag := hexEncode payloadTag
      dek_wrap_nonce := hexEncode dekWrapNonce
      dek_wrapped := hexEncode dekWrapped
      dek_wrap_tag := hexEncode dekWrapTag
      alg := algAes256Gcm
      mk_version := 1 }

/-- Source function `decryptEnvelope` (open), in source order: load the master
key first, then validate the record fields, then unwrap the DEK
(`UnwrapError` on tag failure), then decrypt the payload
(`DecryptError` on tag failure), then parse the plaintext as JSON
(`FormatError` on parse failure). -/
def decryptEnvelope (env : Option String) (record : TxSecureRecord) :
    Except CryptoError JsonVal :=
  match getMasterKey env with
  | .error e => .error e
  | .ok masterKey =>
    match validateRecordFields record with
    | .error e => .error e
    | .ok _ =>
      let dekWrapNonce := hexDecode record.dek_wrap_nonce
      let dekWrapped := hexDecode record.dek_wrapped
      let dekWrapTag := hexDecode record.dek_wrap_tag
      match aesGcmDecrypt masterKey dekWrapNonce dekWrapped dekWrapTag with
      | none => .error .dekUnwrapFailed
      | some dek =>
        let payloadNonce := hexDecode record.payload_nonce
        let payloadCt := hexDecode record.payload_ct
        let payloadTag := hexDecode record.payload_tag
        match aesGcmDecrypt dek payloadNonce payloadCt payloadTag with
        | none => .error .payloadDecryptFailed
        | some payloadBuffer =>
          match parseJson payloadBuffer with
          | none => .error .payloadParseFailed
          | some v => .ok v

/-! ## Evaluation lemmas for the envelope operations -/

theorem except_ok_bind {ε α β : Type} (a : α) (f : α → Except ε β) :
    (Except.ok a : Except ε α).bind f = f a := rfl

theorem except_error_bind {ε α β : Type} (e : ε) (f : α → Except ε β) :
    (Except.error e : Except ε α).bind f = .error e := rfl

/-- A record whose cryptographic fields are the hex encodings of the
given byte lists. -/
def mkRecord (idS pid ts : String) (pn ct tag wn wct wtag : List Nat)
    (alg : String) (mkv : Nat) : TxSecureRecord :=
  { id := idS
    partyId := pid
    createdAt := ts
    payload_nonce := hexEncode pn
    payload_ct := hexEncode ct
    payload_tag := hexEncode tag
    dek_wrap_nonce := hexEncode wn
    dek_wrapped := hexEncode wct
    dek_wrap_tag := hexEncode wtag
    alg := alg
    mk_version := mkv }

/-- The record produced by a successful `encryptEnvelope` call. -/
def sealedRecord (masterKey : List Nat) (rnd : SealRandomness)
    (newId timestamp partyId : String) (payload : JsonVal) : TxSecureRecord :=
  mkRecord newId partyId timestamp rnd.payloadNonce
    (streamEncFrom rnd.dek rnd.payloadNonce 0 (encodeJson payload))
    (aesGcmTag rnd.dek rnd.payloadNonce
      (streamEncFrom rnd.dek rnd.payloadNonce 0 (encodeJson payload)))
    rnd.dekWrapNonce
    (streamEncFrom masterKey rnd.dekWrapNonce 0 rnd.dek)
    (aesGcmTag masterKey rnd.dekWrapNonce
      (streamEncFrom masterKey rnd.dekWrapNonce 0 rnd.dek))
    algAes256Gcm 1

theorem encryptEnvelope_ok {env : Option String} {mk : List Nat}
    (henv : getMasterKey env = .ok mk) (rnd : SealRandomness)
    (newId timestamp partyId : String) (payload : JsonVal) :
    encryptEnvelope env rnd newId timestamp partyId payload =
      .ok (sealedRecord mk rnd newId timestamp partyId payload) := by
  simp only [encryptEnvelope, henv, sealedRecord, mkRecord]

theorem encryptEnvelope_config_error {env : Option String} {e : CryptoError}
    (henv : getMasterKey env = .error e) (rnd : SealRandomness)
    (newId timestamp partyId : String) (payload : JsonVal) :
    encryptEnvelope env rnd newId timestamp partyId payload = .error e := by
  simp only [encryptEnvelope, henv]

theorem decryptEnvelope_config_error {env : Option String} {e : CryptoError}
    (henv : getMasterKey env = .error e) (r : TxSecureRecord) :
    decryptEnvelope env r = .error e := by
  simp only [decryptEnvelope, henv]

theorem decryptEnvelope_validation_error {env : Option String} {mk : List Nat}
    {e : CryptoError} {r : TxSecureRecord} (henv : getMasterKey env = .ok mk)
    (hv : validateRecordFields r = .error e) :
    decryptEnvelope env r = .error e := by
  simp only [decryptEnvelope, henv, hv]

theorem validateHex_spec (s : String) (n : Nat) (name : String) :
    validateHex s n name =
      if isHexString s && (hexDecode s).length == n then .ok ()
      else .error (.validationFailed name) := by
  rw [validateHex]
  by_cases h : isHexString s = true
  · by_cases h2 : (hexDecode s).length = n
    · simp [h, h2]
    · simp [h, h2]
  · simp only [Bool.not_eq_true] at h
    simp [h]

theorem validateHex_hexEncode {bs : List Nat} {n : Nat} (name : String)
    (hb : allBytes bs = true) (hlen : bs.length = n) (hn : 0 < n) :
    validateHex (hexEncode bs) n name = .ok () := by
  have hne : bs ≠ [] := by
    intro hemp
    subst hemp
    simp at hlen
    omega
  rw [validateHex_spec, if_pos]
  rw [Bool.and_eq_true]
  refine ⟨isHexString_hexEncode hne, ?_⟩
  simp [hexDecode_hexEncode hb, hlen]

theorem validateRecordFields_mkRecord {pn ct tag wn wct wtag : List Nat}
    (idS pid ts : String) (alg : String) (mkv : Nat)
    (hpn : pn.length = 12) (hpnb : allBytes pn = true)
    (hctne : ct ≠ [])
    (htag : tag.length = 16) (htagb : allBytes tag = true)
    (hwn : wn.length = 12) (hwnb : allBytes wn = true)
    (hwct : wct.length = 32) (hwctb : allBytes wct = true)
    (hwtag : wtag.length = 16) (hwtagb : allBytes wtag = true) :
    validateRecordFields (mkRecord idS pid ts pn ct tag wn wct wtag alg mkv) = .ok () := by
  simp only [validateRecordFields, mkRecord,
    validateHex_hexEncode payloadNonceName hpnb hpn (by omega),
    validateHex_hexEncode payloadTagName htagb htag (by omega),
    validateHex_hexEncode dekWrapNonceName hwnb hwn (by omega),
    validateHex_hexEncode dekWrappedName hwctb hwct (by omega),
    validateHex_hexEncode dekWrapTagName hwtagb hwtag (by omega),
    except_ok_bind, isHexString_hexEncode hctne, Bool.not_true, Bool.false_eq_true,
    if_false]

theorem decryptEnvelope_mkRecord {env : Option String} {mk : List Nat}
    {pn ct tag wn wct wtag : List Nat} {idS pid ts : String} {alg : String} {mkv : Nat}
    (henv : getMasterKey env = .ok mk)
    (hpn : pn.length = 12) (hpnb : allBytes pn = true)
    (hctne : ct ≠ []) (hctb : allBytes ct = true)
    (htag : tag.length = 16) (htagb : allBytes tag = true)
    (hwn : wn.length = 12) (hwnb : allBytes wn = true)
    (hwct : wct.length = 32) (hwctb : allBytes wct = true)
    (hwtag : wtag.length = 16) (hwtagb : allBytes wtag = true) :
    decryptEnvelope env (mkRecord idS pid ts pn ct tag wn wct wtag alg mkv) =
      match aesGcmDecrypt mk wn wct wtag with
      | none => .error .dekUnwrapFailed
      | some dek =>
        match aesGcmDecrypt dek pn ct tag with
        | none => .error .payloadDecryptFailed
        | some payloadBuffer =>
          match parseJson payloadBuffer with
          | none => .error .payloadParseFailed
          | some v => .ok v := by
  have hval := validateRecordFields_mkRecord idS pid ts alg mkv hpn hpnb hctne
    htag htagb hwn hwnb hwct hwctb hwtag hwtagb
  simp only [mkRecord] at hval
  simp only [decryptEnvelope, henv, hval, mkRecord,
    hexDecode_hexEncode hpnb, hexDecode_hexEncode hctb, hexDecode_hexEncode htagb,
    hexDecode_hexEncode hwnb, hexDecode_hexEncode hwctb, hexDecode_hexEncode hwtagb]

theorem goodRand_spec {rnd : SealRandomness} (h : goodRand rnd = true) :
    rnd.dek.length = 32 ∧ allBytes rnd.dek = true ∧
    rnd.payloadNonce.length = 12 ∧ allBytes rnd.payloadNonce = true ∧
    rnd.dekWrapNonce.length = 12 ∧ allBytes rnd.dekWrapNonce = true := by
  simp only [goodRand, Bool.and_eq_true, beq_iff_eq] at h
  tauto

theorem streamEncFrom_ne_nil (key nonce : List Nat) {pt : List Nat} (h : pt ≠ []) :
    streamEncFrom key nonce 0 pt ≠ [] := by
  intro hemp
  have hl := streamEncFrom_length key nonce 0 pt
  rw [hemp] at hl
  exact h (List.length_eq_zero.mp hl.symm)

theorem decryptEnvelope_sealedRecord {env : Option String} {mk : List Nat}
    (henv : getMasterKey env = .ok mk) {rnd : SealRandomness}
    (hrnd : goodRand rnd = true) (newId timestamp partyId : String)
    (payload : JsonVal) :
    decryptEnvelope env (sealedRecord mk rnd newId timestamp partyId payload) =
      .ok payload := by
  obtain ⟨hdl, hdb, hpl, hpb, hwl, hwb⟩ := goodRand_spec hrnd
  have hpe := allBytes_encodeJson payload
  have hctne := streamEncFrom_ne_nil rnd.dek rnd.payloadNonce
    (encodeJson_ne_nil payload)
  have h1 : aesGcmDecrypt mk rnd.dekWrapNonce
      (streamEncFrom mk rnd.dekWrapNonce 0 rnd.dek)
      (aesGcmTag mk rnd.dekWrapNonce (streamEncFrom mk rnd.dekWrapNonce 0 rnd.dek)) =
      some rnd.dek := by
    rw [aesGcmDecrypt, if_pos rfl, streamDecFrom_streamEncFrom _ _ _ _ hdb]
  have h2 : aesGcmDecrypt rnd.dek rnd.payloadNonce
      (streamEncFrom rnd.dek rnd.payloadNonce 0 (encodeJson payload))
      (aesGcmTag rnd.dek rnd.payloadNonce
        (streamEncFrom rnd.dek rnd.payloadNonce 0 (encodeJson payload))) =
      some (encodeJson payload) := by
    rw [aesGcmDecrypt, if_pos rfl, streamDecFrom_streamEncFrom _ _ _ _ hpe]
  rw [sealedRecord, decryptEnvelope_mkRecord henv hpl hpb hctne
    (allBytes_streamEncFrom _ _ _ _) (aesGcmTag_length _ _ _) (allBytes_aesGcmTag _ _ _)
    hwl hwb (by rw [streamEncFrom_length]; exact hdl) (allBytes_streamEncFrom _ _ _ _)
    (aesGcmTag_length _ _ _) (allBytes_aesGcmTag _ _ _)]
  simp only [h1, h2, parseJson_encodeJson]

/-! ## Record fields, tampering, and validation characterization -/

theorem allBytes_set {l : List Nat} {v : Nat} (hv : v < 256) :
    ∀ {i : Nat}, allBytes l = true → allBytes (l.set i v) = true := by
  induction l with
  | nil => intro i h; simpa using h
  | cons b bs ih =>
    intro i h
    rw [allBytes_cons, Bool.and_eq_true] at h
    cases i with
    | zero =>
      rw [List.set, allBytes_cons, Bool.and_eq_true]
      exact ⟨decide_eq_true hv, h.2⟩
    | succ i =>
      rw [List.set, allBytes_cons, Bool.and_eq_true]
      exact ⟨h.1, ih h.2⟩

/-- The six hex-encoded fields of a record. -/
inductive RecordField where
  | payloadNonceF
  | payloadCtF
  | payloadTagF
  | dekWrapNonceF
  | dekWrappedF
  | dekWrapTagF
  deriving DecidableEq, Repr

/-- The name under which a field appears in validation errors. -/
def fieldName : RecordField → String
  | .payloadNonceF => payloadNonceName
  | .payloadCtF => payloadCtName
  | .payloadTagF => payloadTagName
  | .dekWrapNonceF => dekWrapNonceName
  | .dekWrappedF => dekWrappedName
  | .dekWrapTagF => dekWrapTagName

/-- Read one hex field of a record. -/
def getField (r : TxSecureRecord) : RecordField → String
  | .payloadNonceF => r.payload_nonce
  | .payloadCtF => r.payload_ct
  | .payloadTagF => r.payload_tag
  | .dekWrapNonceF => r.dek_wrap_nonce
  | .dekWrappedF => r.dek_wrapped
  | .dekWrapTagF => r.dek_wrap_tag

/-- Replace one hex field of a record. -/
def setField (r : TxSecureRecord) : RecordField → String → TxSecureRecord
  | .payloadNonceF, s => { r with payload_nonce := s }
  | .payloadCtF, s => { r with payload_ct := s }
  | .payloadTagF, s => { r with payload_tag := s }
  | .dekWrapNonceF, s => { r with dek_wrap_nonce := s }
  | .dekWrappedF, s => { r with dek_wrapped := s }
  | .dekWrapTagF, s => { r with dek_wrap_tag := s }

/-- Expected decoded byte length of a field (`payload_ct` is unconstrained). -/
def fieldExpectedBytes : RecordField → Option Nat
  | .payloadNonceF => some 12
  | .payloadCtF => none
  | .payloadTagF => some 16
  | .dekWrapNonceF => some 12
  | .dekWrappedF => some 32
  | .dekWrapTagF => some 16

/-- The validation check `decryptEnvelope` performs on one field. -/
def fieldOK (r : TxSecureRecord) (f : RecordField) : Bool :=
  match fieldExpectedBytes f with
  | some n => isHexString (getField r f) && (hexDecode (getField r f)).length == n
  | none => isHexString (getField r f)

theorem if_ok_bind {c : Bool} {e : CryptoError} {β : Type} (f : Unit → Except CryptoError β) :
    ((if c = true then Except.ok () else Except.error e).bind f) =
      if c = true then f () else .error e := by
  by_cases h : c = true <;> simp [h, except_ok_bind, except_error_bind]

/-- Normal form of `validateRecordFields`: explicit first-failure ifs. -/
theorem validateRecordFields_eq (r : TxSecureRecord) :
    validateRecordFields r =
      (if fieldOK r .payloadNonceF then
       if fieldOK r .payloadTagF then
       if fieldOK r .dekWrapNonceF then
       if fieldOK r .dekWrappedF then
       if fieldOK r .dekWrapTagF then
       if fieldOK r .payloadCtF then .ok ()
       else .error (.validationFailed payloadCtName)
       else .error (.validationFailed dekWrapTagName)
       else .error (.validationFailed dekWrappedName)
       else .error (.validationFailed dekWrapNonceName)
       else .error (.validationFailed payloadTagName)
       else .error (.validationFailed payloadNonceName)) := by
  simp only [validateRecordFields, validateHex_spec, if_ok_bind, fieldOK,
    fieldExpectedBytes, getField]
  by_cases hct : isHexString r.payload_ct = true <;> simp [hct]

theorem validateRecordFields_error_of_fieldBad {r : TxSecureRecord} {f : RecordField}
    (hf : fieldOK r f = false) :
    ∃ g, fieldOK r g = false ∧
      validateRecordFields r = .error (.validationFailed (fieldName g)) := by
  simp only [validateRecordFields_eq]
  by_cases h1 : fieldOK r .payloadNonceF = true
  case neg =>
    exact ⟨.payloadNonceF, by simpa using h1, by simp [h1, fieldName]⟩
  by_cases h2 : fieldOK r .payloadTagF = true
  case neg =>
    exact ⟨.payloadTagF, by simpa using h2, by simp [h1, h2, fieldName]⟩
  by_cases h3 : fieldOK r .dekWrapNonceF = true
  case neg =>
    exact ⟨.dekWrapNonceF, by simpa using h3, by simp [h1, h2, h3, fieldName]⟩
  by_cases h4 : fieldOK r .dekWrappedF = true
  case neg =>
    exact ⟨.dekWrappedF, by simpa using h4, by simp [h1, h2, h3, h4, fieldName]⟩
  by_cases h5 : fieldOK r .dekWrapTagF = true
  case neg =>
    exact ⟨.dekWrapTagF, by simpa using h5, by simp [h1, h2, h3, h4, h5, fieldName]⟩
  by_cases h6 : fieldOK r .payloadCtF = true
  case neg =>
    exact ⟨.payloadCtF, by simpa using h6, by simp [h1, h2, h3, h4, h5, h6, fieldName]⟩
  exact absurd (by cases f <;> assumption : fieldOK r f = true) (by simp [hf])

theorem hexDecodeList_append_char {c : Char} :
    ∀ cs : List Char, cs.length % 2 = 0 →
      hexDecodeList (cs ++ [c]) = hexDecodeList cs
  | [], _ => by simp [hexDecodeList]
  | [_], h => by simp at h
  | c1 :: c2 :: rest, h => by
    have h2 : rest.length % 2 = 0 := by
      simp only [List.length_cons] at h
      omega
    cases hh : hexVal? c1 with
    | none => simp only [List.cons_append, hexDecodeList, hh]
    | some a =>
      cases hl : hexVal? c2 with
      | none => simp only [List.cons_append, hexDecodeList, hh, hl]
      | some b =>
        simp only [List.cons_append, List.append_eq, hexDecodeList, hh, hl,
          hexDecodeList_append_char rest h2]

theorem hexDecode_push {s : String} {c : Char} (heven : s.data.length % 2 = 0) :
    hexDecode (s.push c) = hexDecode s := by
  simp only [hexDecode, String.data_push]
  exact hexDecodeList_append_char s.data heven

theorem isHexString_push {s : String} {c : Char} (hs : isHexString s = true)
    (hc : isHexChar c = true) : isHexString (s.push c) = true := by
  rw [isHexString, Bool.and_eq_true] at hs ⊢
  rw [String.data_push]
  constructor
  · cases hd : s.data with
    | nil => rw [hd] at hs; simp at hs
    | cons x xs => simp [hd]
  · rw [List.all_append]
    simp [hs.2, hc]

theorem hexEncode_data_even (bs : List Nat) : (hexEncode bs).data.length % 2 = 0 := by
  show (hexEncodeList bs).length % 2 = 0
  rw [hexEncodeList_length]
  omega

/-- Extensionality: `decryptEnvelope` depends on a record only through the hex-validity
and decoded bytes of its six cryptographic fields. -/
theorem decryptEnvelope_ext {env : Option String} {r r' : TxSecureRecord}
    (e1 : isHexString r'.payload_nonce = isHexString r.payload_nonce)
    (d1 : hexDecode r'.payload_nonce = hexDecode r.payload_nonce)
    (e2 : isHexString r'.payload_ct = isHexString r.payload_ct)
    (d2 : hexDecode r'.payload_ct = hexDecode r.payload_ct)
    (e3 : isHexString r'.payload_tag = isHexString r.payload_tag)
    (d3 : hexDecode r'.payload_tag = hexDecode r.payload_tag)
    (e4 : isHexString r'.dek_wrap_nonce = isHexString r.dek_wrap_nonce)
    (d4 : hexDecode r'.dek_wrap_nonce = hexDecode r.dek_wrap_nonce)
    (e5 : isHexString r'.dek_wrapped = isHexString r.dek_wrapped)
    (d5 : hexDecode r'.dek_wrapped = hexDecode r.dek_wrapped)
    (e6 : isHexString r'.dek_wrap_tag = isHexString r.dek_wrap_tag)
    (d6 : hexDecode r'.dek_wrap_tag = hexDecode r.dek_wrap_tag) :
    decryptEnvelope env r' = decryptEnvelope env r := by
  simp only [decryptEnvelope, validateRecordFields, validateHex_spec,
    e1, d1, e2, d2, e3, d3, e4, d4, e5, d5, e6, d6]

/-! ## Claim theorems -/

/-- Witness master key of 32 zero bytes. -/
def keyA : List Nat := List.replicate 32 0

/-- A second witness master key differing from `keyA` in its first byte. -/
def keyB : List Nat := 1 :: List.replicate 31 0

/-- Witness environment supplying `keyA`. -/
def envA : Option String := some (hexEncode keyA)

/-- Witness environment supplying `keyB`. -/
def envB : Option String := some (hexEncode keyB)

/-- Witness random draws for a seal call. -/
def rndA : SealRandomness := ⟨List.replicate 32 1, List.replicate 12 2, List.replicate 12 3⟩

/-- Witness random draws for a second, independent seal call. -/
def rndB : SealRandomness := ⟨List.replicate 32 5, List.replicate 12 6, List.replicate 12 7⟩

/-- C1: with a validly configured 32-byte master key, for every owner tag
and every structured payload, open applied to the record produced by seal
succeeds and returns a value equal to the payload (deep equality is
equality of `JsonVal` trees); in particular sealing the empty object and
opening it returns the empty object. -/
theorem c1_seal_open_roundtrip (env : Option String) (mk : List Nat)
    (rnd : SealRandomness) (newId timestamp ownerTag : String) (payload : JsonVal)
    (henv : getMasterKey env = .ok mk) (hrnd : goodRand rnd = true) :
    ∃ record, encryptEnvelope env rnd newId timestamp ownerTag payload = .ok record ∧
      decryptEnvelope env record = .ok payload :=
  ⟨sealedRecord mk rnd newId timestamp ownerTag payload,
    encryptEnvelope_ok henv rnd newId timestamp ownerTag payload,
    decryptEnvelope_sealedRecord henv hrnd newId timestamp ownerTag payload⟩

/-- C1 witness: a concrete key, concrete randomness, owner tag
"party_123" and the empty-object payload. -/
theorem c1_seal_open_roundtrip_witness :
    ∃ record, encryptEnvelope envA rndA ("id-1") ("ts-1") ("party_123") (.obj []) =
        .ok record ∧
      decryptEnvelope envA record = .ok (.obj []) :=
  c1_seal_open_roundtrip envA keyA rndA ("id-1") ("ts-1") ("party_123") (.obj [])
    (by decide) (by decide)

/-- C10: with the master-key configuration value set to the empty string,
the loader fails with the missing-key ConfigError (the empty value is
classified as absent, not as malformed hex or wrong length), and every
seal and open invocation under that environment fails with the same
error. -/
theorem c10_empty_key_missing :
    getMasterKey (some ("")) = .error .masterKeyMissing ∧
    (∀ rnd newId timestamp ownerTag payload,
      encryptEnvelope (some ("")) rnd newId timestamp ownerTag payload =
        .error .masterKeyMissing) ∧
    (∀ r, decryptEnvelope (some ("")) r = .error .masterKeyMissing) := by
  have h : getMasterKey (some ("")) = .error .masterKeyMissing := by decide
  exact ⟨h, fun rnd newId timestamp ownerTag payload =>
      encryptEnvelope_config_error h rnd newId timestamp ownerTag payload,
    fun r => decryptEnvelope_config_error h r⟩

/-- C6: the loader checks in order: (a) an absent value fails with the
missing-key error; (b) a present nonempty value with a character outside
the hex alphabet fails with the malformed-hex error; (c) a hex value
whose decoded byte length is not exactly 32 fails with the wrong-length
error carrying that length; otherwise the decoded 32-byte key is
returned. -/
theorem c6_getMasterKey_order :
    (getMasterKey none = .error .masterKeyMissing) ∧
    (∀ s : String, s.data ≠ [] → ¬s.data.all isHexChar = true →
      getMasterKey (some s) = .error .masterKeyNotHex) ∧
    (∀ s : String, s.data ≠ [] → s.data.all isHexChar = true →
      (hexDecode s).length ≠ 32 →
      getMasterKey (some s) = .error (.masterKeyWrongLength (hexDecode s).length)) ∧
    (∀ s : String, s.data ≠ [] → s.data.all isHexChar = true →
      (hexDecode s).length = 32 →
      getMasterKey (some s) = .ok (hexDecode s)) := by
  refine ⟨rfl, ?_, ?_, ?_⟩
  · intro s hne hhex
    have hemp : s.data.isEmpty = false := by
      cases hd : s.data with
      | nil => exact absurd hd hne
      | cons x xs => simp
    simp [getMasterKey, isHexString, hemp, hhex]
  · intro s hne hhex hlen
    have hemp : s.data.isEmpty = false := by
      cases hd : s.data with
      | nil => exact absurd hd hne
      | cons x xs => simp
    simp [getMasterKey, isHexString, hemp, hhex, hlen]
  · intro s hne hhex hlen
    have hemp : s.data.isEmpty = false := by
      cases hd : s.data with
      | nil => exact absurd hd hne
      | cons x xs => simp
    simp [getMasterKey, isHexString, hemp, hhex, hlen]

/-- C6 witness: a non-hex value, a too-short hex value, and a valid
64-character value, each classified as the claim orders. -/
theorem c6_getMasterKey_order_witness :
    getMasterKey (some ("zz")) = .error .masterKeyNotHex ∧
    getMasterKey (some ("00")) = .error (.masterKeyWrongLength (hexDecode ("00")).length) ∧
    getMasterKey (some (hexEncode keyA)) = .ok (hexDecode (hexEncode keyA)) :=
  ⟨c6_getMasterKey_order.2.1 ("zz") (by decide) (by decide),
   c6_getMasterKey_order.2.2.1 ("00") (by decide) (by decide) (by decide),
   c6_getMasterKey_order.2.2.2 (hexEncode keyA) (by decide) (by decide) (by decide)⟩

/-- A record whose `payload_nonce` is not hex (so field validation must
reject it), with all remaining fields well-formed. -/
def badFieldRecord : TxSecureRecord :=
  { id := "i-0"
    partyId := "p-0"
    createdAt := "c-0"
    payload_nonce := "zz"
    payload_ct := "00"
    payload_tag := hexEncode (List.replicate 16 0)
    dek_wrap_nonce := hexEncode (List.replicate 12 0)
    dek_wrapped := hexEncode (List.replicate 32 0)
    dek_wrap_tag := hexEncode (List.replicate 16 0)
    alg := algAes256Gcm
    mk_version := 1 }

/-- C4 counterexample: the claim says a record failing field validation
yields a ValidationError even when the master-key configuration is
missing. On the code, open with a missing configuration and an invalid
`payload_nonce` returns the missing-key ConfigError, never a
ValidationError: the master key is loaded before any field validation. -/
theorem c4_counterexample :
    fieldOK badFieldRecord .payloadNonceF = false ∧
    decryptEnvelope none badFieldRecord = .error .masterKeyMissing ∧
    (∀ s, decryptEnvelope none badFieldRecord ≠ .error (.validationFailed s)) := by
  have h : decryptEnvelope none badFieldRecord = .error .masterKeyMissing :=
    decryptEnvelope_config_error (by decide) badFieldRecord
  refine ⟨by decide, h, ?_⟩
  intro s
  rw [h]
  simp

/-- C4 amended: open loads the master key as its first step; when the
configuration fails, open returns that ConfigError for every record,
even one failing field validation; once the key loads, field validation
is performed before any cryptographic work, and a validation failure is
returned unchanged. -/
theorem c4_amended_key_load_first (env : Option String) :
    (∀ e r, getMasterKey env = .error e → decryptEnvelope env r = .error e) ∧
    (∀ mk r e, getMasterKey env = .ok mk → validateRecordFields r = .error e →
      decryptEnvelope env r = .error e) :=
  ⟨fun _ r h => decryptEnvelope_config_error h r,
   fun _ _ _ h hv => decryptEnvelope_validation_error h hv⟩

/-- C4 amended witness: under a missing configuration the bad record
yields the ConfigError; under a valid configuration it yields the
ValidationError naming `payload_nonce`. -/
theorem c4_amended_key_load_first_witness :
    decryptEnvelope none badFieldRecord = .error .masterKeyMissing ∧
    decryptEnvelope envA badFieldRecord = .error (.validationFailed payloadNonceName) :=
  ⟨(c4_amended_key_load_first none).1 .masterKeyMissing badFieldRecord (by decide),
   (c4_amended_key_load_first envA).2 keyA badFieldRecord
     (.validationFailed payloadNonceName) (by decide) (by decide)⟩

/-- C5: with a valid master-key configuration, a record in which one
field is non-hex or decodes to the wrong exact byte length — the other
fields passing their checks — is rejected by open with a ValidationError
naming that field; decoding never crashes (all functions are total) and
no decryption is attempted. -/
theorem c5_open_rejects_bad_field (env : Option String) (mk : List Nat)
    (r : TxSecureRecord) (f : RecordField) (henv : getMasterKey env = .ok mk)
    (hf : fieldOK r f = false) (honly : ∀ g, g ≠ f → fieldOK r g = true) :
    decryptEnvelope env r = .error (.validationFailed (fieldName f)) := by
  apply decryptEnvelope_validation_error henv
  rw [validateRecordFields_eq]
  cases f with
  | payloadNonceF => simp [hf, fieldName]
  | payloadTagF =>
    have g1 := honly .payloadNonceF (by decide)
    simp [g1, hf, fieldName]
  | dekWrapNonceF =>
    have g1 := honly .payloadNonceF (by decide)
    have g2 := honly .payloadTagF (by decide)
    simp [g1, g2, hf, fieldName]
  | dekWrappedF =>
    have g1 := honly .payloadNonceF (by decide)
    have g2 := honly .payloadTagF (by decide)
    have g3 := honly .dekWrapNonceF (by decide)
    simp [g1, g2, g3, hf, fieldName]
  | dekWrapTagF =>
    have g1 := honly .payloadNonceF (by decide)
    have g2 := honly .payloadTagF (by decide)
    have g3 := honly .dekWrapNonceF (by decide)
    have g4 := honly .dekWrappedF (by decide)
    simp [g1, g2, g3, g4, hf, fieldName]
  | payloadCtF =>
    have g1 := honly .payloadNonceF (by decide)
    have g2 := honly .payloadTagF (by decide)
    have g3 := honly .dekWrapNonceF (by decide)
    have g4 := honly .dekWrappedF (by decide)
    have g5 := honly .dekWrapTagF (by decide)
    simp [g1, g2, g3, g4, g5, hf, fieldName]

/-- A record whose `payload_nonce` decodes to 10 bytes instead of 12,
every other field well-formed. -/
def shortNonceRecord : TxSecureRecord :=
  { badFieldRecord with payload_nonce := hexEncode (List.replicate 10 0) }

/-- C5 witness: the example of the spec of a 10-byte `payload_nonce` is
rejected with a ValidationError naming `payload_nonce`. -/
theorem c5_open_rejects_bad_field_witness :
    decryptEnvelope envA shortNonceRecord =
      .error (.validationFailed (fieldName .payloadNonceF)) :=
  c5_open_rejects_bad_field envA keyA shortNonceRecord .payloadNonceF (by decide)
    (by decide)
    (by intro g hg; cases g <;> first | exact absurd rfl hg | decide)

/-- C7: every record returned by seal is well-formed: `payload_nonce`
decodes to exactly 12 bytes, `payload_tag` to 16, `dek_wrap_nonce` to
12, `dek_wrapped` to exactly 32, `dek_wrap_tag` to 16; the owner tag is
stored verbatim; `alg` is the single supported discriminant
"AES-256-GCM"; and `mk_version` equals 1. -/
theorem c7_sealed_record_wellformed (env : Option String) (mk : List Nat)
    (rnd : SealRandomness) (newId timestamp ownerTag : String) (payload : JsonVal)
    (henv : getMasterKey env = .ok mk) (hrnd : goodRand rnd = true) :
    ∃ record, encryptEnvelope env rnd newId timestamp ownerTag payload = .ok record ∧
      (hexDecode record.payload_nonce).length = 12 ∧
      (hexDecode record.payload_tag).length = 16 ∧
      (hexDecode record.dek_wrap_nonce).length = 12 ∧
      (hexDecode record.dek_wrapped).length = 32 ∧
      (hexDecode record.dek_wrap_tag).length = 16 ∧
      record.partyId = ownerTag ∧
      record.alg = algAes256Gcm ∧
      record.mk_version = 1 ∧
      record.id = newId ∧
      record.createdAt = timestamp := by
  obtain ⟨hdl, hdb, hpl, hpb, hwl, hwb⟩ := goodRand_spec hrnd
  refine ⟨sealedRecord mk rnd newId timestamp ownerTag payload,
    encryptEnvelope_ok henv rnd newId timestamp ownerTag payload, ?_, ?_, ?_, ?_, ?_,
    rfl, rfl, rfl, rfl, rfl⟩
  · show (hexDecode (hexEncode rnd.payloadNonce)).length = 12
    rw [hexDecode_hexEncode hpb, hpl]
  · show (hexDecode (hexEncode (aesGcmTag rnd.dek rnd.payloadNonce
      (streamEncFrom rnd.dek rnd.payloadNonce 0 (encodeJson payload))))).length = 16
    rw [hexDecode_hexEncode (allBytes_aesGcmTag _ _ _), aesGcmTag_length]
  · show (hexDecode (hexEncode rnd.dekWrapNonce)).length = 12
    rw [hexDecode_hexEncode hwb, hwl]
  · show (hexDecode (hexEncode (streamEncFrom mk rnd.dekWrapNonce 0 rnd.dek))).length = 32
    rw [hexDecode_hexEncode (allBytes_streamEncFrom _ _ _ _), streamEncFrom_length, hdl]
  · show (hexDecode (hexEncode (aesGcmTag mk rnd.dekWrapNonce
      (streamEncFrom mk rnd.dekWrapNonce 0 rnd.dek)))).length = 16
    rw [hexDecode_hexEncode (allBytes_aesGcmTag _ _ _), aesGcmTag_length]

/-- C7 witness: the well-formedness facts at a concrete seal call. -/
theorem c7_sealed_record_wellformed_witness :
    ∃ record, encryptEnvelope envA rndA ("id-7") ("ts-7") ("party_7") (.obj []) =
        .ok record ∧
      (hexDecode record.payload_nonce).length = 12 ∧
      (hexDecode record.payload_tag).length = 16 ∧
      (hexDecode record.dek_wrap_nonce).length = 12 ∧
      (hexDecode record.dek_wrapped).length = 32 ∧
      (hexDecode record.dek_wrap_tag).length = 16 ∧
      record.partyId = ("party_7") ∧
      record.alg = algAes256Gcm ∧
      record.mk_version = 1 ∧
      record.id = ("id-7") ∧
      record.createdAt = ("ts-7") :=
  c7_sealed_record_wellformed envA keyA rndA ("id-7") ("ts-7") ("party_7") (.obj [])
    (by decide) (by decide)

theorem aesGcmDecrypt_ne_tag {key nonce ct tag : List Nat}
    (h : tag ≠ aesGcmTag key nonce ct) : aesGcmDecrypt key nonce ct tag = none := by
  rw [aesGcmDecrypt, if_neg h]

theorem decryptEnvelope_mkRecord_unwrap_fail {env : Option String} {mk : List Nat}
    {pn ct tag wn wct wtag : List Nat} {idS pid ts : String} {alg : String} {mkv : Nat}
    (henv : getMasterKey env = .ok mk)
    (hpn : pn.length = 12) (hpnb : allBytes pn = true)
    (hctne : ct ≠ []) (hctb : allBytes ct = true)
    (htag : tag.length = 16) (htagb : allBytes tag = true)
    (hwn : wn.length = 12) (hwnb : allBytes wn = true)
    (hwct : wct.length = 32) (hwctb : allBytes wct = true)
    (hwtag : wtag.length = 16) (hwtagb : allBytes wtag = true)
    (hfail : aesGcmDecrypt mk wn wct wtag = none) :
    decryptEnvelope env (mkRecord idS pid ts pn ct tag wn wct wtag alg mkv) =
      .error .dekUnwrapFailed := by
  rw [decryptEnvelope_mkRecord henv hpn hpnb hctne hctb htag htagb hwn hwnb
    hwct hwctb hwtag hwtagb]
  simp only [hfail]

theorem decryptEnvelope_mkRecord_payload_fail {env : Option String} {mk dek : List Nat}
    {pn ct tag wn wct wtag : List Nat} {idS pid ts : String} {alg : String} {mkv : Nat}
    (henv : getMasterKey env = .ok mk)
    (hpn : pn.length = 12) (hpnb : allBytes pn = true)
    (hctne : ct ≠ []) (hctb : allBytes ct = true)
    (htag : tag.length = 16) (htagb : allBytes tag = true)
    (hwn : wn.length = 12) (hwnb : allBytes wn = true)
    (hwct : wct.length = 32) (hwctb : allBytes wct = true)
    (hwtag : wtag.length = 16) (hwtagb : allBytes wtag = true)
    (hunwrap : aesGcmDecrypt mk wn wct wtag = some dek)
    (hfail : aesGcmDecrypt dek pn ct tag = none) :
    decryptEnvelope env (mkRecord idS pid ts pn ct tag wn wct wtag alg mkv) =
      .error .payloadDecryptFailed := by
  rw [decryptEnvelope_mkRecord henv hpn hpnb hctne hctb htag htagb hwn hwnb
    hwct hwctb hwtag hwtagb]
  simp only [hunwrap, hfail]

theorem set_ne_nil {l : List Nat} {i v : Nat} (h : l ≠ []) : l.set i v ≠ [] := by
  intro hemp
  have := List.length_set l i v
  rw [hemp] at this
  exact h (List.length_eq_zero.mp this.symm)

/-- C2: for every sealed record, replacing any single byte of the
payload ciphertext, or any single byte of the payload tag, by a
different byte value makes open fail with the DecryptError kind
(payload decryption failure) — which is distinct from the UnwrapError
kind — and open never returns a payload. -/
theorem c2_payload_tamper (env : Option String) (mk : List Nat)
    (rnd : SealRandomness) (newId timestamp ownerTag : String) (payload : JsonVal)
    (henv : getMasterKey env = .ok mk) (hrnd : goodRand rnd = true) :
    ∃ record, encryptEnvelope env rnd newId timestamp ownerTag payload = .ok record ∧
      (∀ i v, i < (hexDecode record.payload_ct).length → v < 256 →
        v ≠ (hexDecode record.payload_ct).getD i 0 →
        decryptEnvelope env (setField record .payloadCtF
          (hexEncode ((hexDecode record.payload_ct).set i v))) =
          .error .payloadDecryptFailed) ∧
      (∀ j v, j < (hexDecode record.payload_tag).length → v < 256 →
        v ≠ (hexDecode record.payload_tag).getD j 0 →
        decryptEnvelope env (setField record .payloadTagF
          (hexEncode ((hexDecode record.payload_tag).set j v))) =
          .error .payloadDecryptFailed) ∧
      CryptoError.payloadDecryptFailed ≠ CryptoError.dekUnwrapFailed := by
  obtain ⟨hdl, hdb, hpl, hpb, hwl, hwb⟩ := goodRand_spec hrnd
  have hctb : allBytes (streamEncFrom rnd.dek rnd.payloadNonce 0 (encodeJson payload)) =
    true := allBytes_streamEncFrom _ _ _ _
  have hctne := streamEncFrom_ne_nil rnd.dek rnd.payloadNonce
    (encodeJson_ne_nil payload)
  have htagb : allBytes (aesGcmTag rnd.dek rnd.payloadNonce
    (streamEncFrom rnd.dek rnd.payloadNonce 0 (encodeJson payload))) = true :=
    allBytes_aesGcmTag _ _ _
  have hwctb : allBytes (streamEncFrom mk rnd.dekWrapNonce 0 rnd.dek) = true :=
    allBytes_streamEncFrom _ _ _ _
  have hwctl : (streamEncFrom mk rnd.dekWrapNonce 0 rnd.dek).length = 32 := by
    rw [streamEncFrom_length, hdl]
  have hwtagb : allBytes (aesGcmTag mk rnd.dekWrapNonce
    (streamEncFrom mk rnd.dekWrapNonce 0 rnd.dek)) = true := allBytes_aesGcmTag _ _ _
  have hunwrap : aesGcmDecrypt mk rnd.dekWrapNonce
      (streamEncFrom mk rnd.dekWrapNonce 0 rnd.dek)
      (aesGcmTag mk rnd.dekWrapNonce (streamEncFrom mk rnd.dekWrapNonce 0 rnd.dek)) =
      some rnd.dek := by
    rw [aesGcmDecrypt, if_pos rfl, streamDecFrom_streamEncFrom _ _ _ _ hdb]
  have hctdec : hexDecode (sealedRecord mk rnd newId timestamp ownerTag payload).payload_ct
      = streamEncFrom rnd.dek rnd.payloadNonce 0 (encodeJson payload) := by
    simp only [sealedRecord, mkRecord]
    exact hexDecode_hexEncode hctb
  have htagdec : hexDecode
      (sealedRecord mk rnd newId timestamp ownerTag payload).payload_tag
      = aesGcmTag rnd.dek rnd.payloadNonce
          (streamEncFrom rnd.dek rnd.payloadNonce 0 (encodeJson payload)) := by
    simp only [sealedRecord, mkRecord]
    exact hexDecode_hexEncode htagb
  refine ⟨sealedRecord mk rnd newId timestamp ownerTag payload,
    encryptEnvelope_ok henv rnd newId timestamp ownerTag payload, ?_, ?_, by simp⟩
  · intro i v hi hv hne
    rw [hctdec] at hi hne ⊢
    have hrec : setField (sealedRecord mk rnd newId timestamp ownerTag payload)
        .payloadCtF (hexEncode
          ((streamEncFrom rnd.dek rnd.payloadNonce 0 (encodeJson payload)).set i v)) =
        mkRecord newId ownerTag timestamp rnd.payloadNonce
          ((streamEncFrom rnd.dek rnd.payloadNonce 0 (encodeJson payload)).set i v)
          (aesGcmTag rnd.dek rnd.payloadNonce
            (streamEncFrom rnd.dek rnd.payloadNonce 0 (encodeJson payload)))
          rnd.dekWrapNonce (streamEncFrom mk rnd.dekWrapNonce 0 rnd.dek)
          (aesGcmTag mk rnd.dekWrapNonce (streamEncFrom mk rnd.dekWrapNonce 0 rnd.dek))
          algAes256Gcm 1 := by
      simp [setField, sealedRecord, mkRecord]
    rw [hrec]
    refine decryptEnvelope_mkRecord_payload_fail henv hpl hpb (set_ne_nil hctne)
      (allBytes_set hv hctb) (aesGcmTag_length _ _ _) htagb hwl hwb hwctl hwctb
      (aesGcmTag_length _ _ _) hwtagb hunwrap ?_
    apply aesGcmDecrypt_ne_tag
    intro hcontra
    exact aesGcmTag_set_ct_ne hi hv hctb hne hcontra.symm
  · intro j v hj hv hne
    rw [htagdec] at hj hne ⊢
    have hrec : setField (sealedRecord mk rnd newId timestamp ownerTag payload)
        .payloadTagF (hexEncode
          ((aesGcmTag rnd.dek rnd.payloadNonce
            (streamEncFrom rnd.dek rnd.payloadNonce 0 (encodeJson payload))).set j v)) =
        mkRecord newId ownerTag timestamp rnd.payloadNonce
          (streamEncFrom rnd.dek rnd.payloadNonce 0 (encodeJson payload))
          ((aesGcmTag rnd.dek rnd.payloadNonce
            (streamEncFrom rnd.dek rnd.payloadNonce 0 (encodeJson payload))).set j v)
          rnd.dekWrapNonce (streamEncFrom mk rnd.dekWrapNonce 0 rnd.dek)
          (aesGcmTag mk rnd.dekWrapNonce (streamEncFrom mk rnd.dekWrapNonce 0 rnd.dek))
          algAes256Gcm 1 := by
      simp [setField, sealedRecord, mkRecord]
    rw [hrec]
    have htagl : ((aesGcmTag rnd.dek rnd.payloadNonce
        (streamEncFrom rnd.dek rnd.payloadNonce 0 (encodeJson payload))).set j v).length =
        16 := by
      rw [List.length_set, aesGcmTag_length]
    refine decryptEnvelope_mkRecord_payload_fail henv hpl hpb hctne hctb htagl
      (allBytes_set hv htagb) hwl hwb hwctl hwctb (aesGcmTag_length _ _ _) hwtagb
      hunwrap ?_
    apply aesGcmDecrypt_ne_tag
    rw [aesGcmTag_length] at hj
    exact set_ne_self (by rw [aesGcmTag_length]; exact hj) hne

/-- C2 witness: tampering byte 0 of the ciphertext and byte 0 of the tag
of a concrete sealed record. -/
theorem c2_payload_tamper_witness :
    ∃ record, encryptEnvelope envA rndA ("id-2") ("ts-2") ("party_2") (.obj []) =
        .ok record ∧
      (∀ i v, i < (hexDecode record.payload_ct).length → v < 256 →
        v ≠ (hexDecode record.payload_ct).getD i 0 →
        decryptEnvelope envA (setField record .payloadCtF
          (hexEncode ((hexDecode record.payload_ct).set i v))) =
          .error .payloadDecryptFailed) ∧
      (∀ j v, j < (hexDecode record.payload_tag).length → v < 256 →
        v ≠ (hexDecode record.payload_tag).getD j 0 →
        decryptEnvelope envA (setField record .payloadTagF
          (hexEncode ((hexDecode record.payload_tag).set j v))) =
          .error .payloadDecryptFailed) ∧
      CryptoError.payloadDecryptFailed ≠ CryptoError.dekUnwrapFailed :=
  c2_payload_tamper envA keyA rndA ("id-2") ("ts-2") ("party_2") (.obj [])
    (by decide) (by decide)

/-- C3: for every payload, a record sealed under master key A and opened
while the loader supplies a different master key B fails with the
UnwrapError kind, given the AEAD authentication guarantee that the wrap
tag recomputed under B differs from the stored one (the black-box
property the spec ascribes to the primitive; no 16-byte tag can satisfy it universally);
and altering any single byte of `dek_wrapped` or `dek_wrap_tag` makes
open fail with UnwrapError. In every case the failure is the DEK-unwrap
error, so the payload-decrypt step is never reached. -/
theorem c3_wrong_key_or_wrap_tamper (env1 env2 : Option String) (mkA mkB : List Nat)
    (rnd : SealRandomness) (newId timestamp ownerTag : String) (payload : JsonVal)
    (hA : getMasterKey env1 = .ok mkA) (hB : getMasterKey env2 = .ok mkB)
    (hrnd : goodRand rnd = true) (_hkeys : mkB ≠ mkA)
    (htagne : aesGcmTag mkB rnd.dekWrapNonce
        (streamEncFrom mkA rnd.dekWrapNonce 0 rnd.dek) ≠
      aesGcmTag mkA rnd.dekWrapNonce
        (streamEncFrom mkA rnd.dekWrapNonce 0 rnd.dek)) :
    ∃ record, encryptEnvelope env1 rnd newId timestamp ownerTag payload = .ok record ∧
      decryptEnvelope env2 record = .error .dekUnwrapFailed ∧
      (∀ i v, i < (hexDecode record.dek_wrapped).length → v < 256 →
        v ≠ (hexDecode record.dek_wrapped).getD i 0 →
        decryptEnvelope env1 (setField record .dekWrappedF
          (hexEncode ((hexDecode record.dek_wrapped).set i v))) =
          .error .dekUnwrapFailed) ∧
      (∀ j v, j < (hexDecode record.dek_wrap_tag).length → v < 256 →
        v ≠ (hexDecode record.dek_wrap_tag).getD j 0 →
        decryptEnvelope env1 (setField record .dekWrapTagF
          (hexEncode ((hexDecode record.dek_wrap_tag).set j v))) =
          .error .dekUnwrapFailed) := by
  obtain ⟨hdl, hdb, hpl, hpb, hwl, hwb⟩ := goodRand_spec hrnd
  have hctb : allBytes (streamEncFrom rnd.dek rnd.payloadNonce 0 (encodeJson payload)) =
    true := allBytes_streamEncFrom _ _ _ _
  have hctne := streamEncFrom_ne_nil rnd.dek rnd.payloadNonce
    (encodeJson_ne_nil payload)
  have htagb : allBytes (aesGcmTag rnd.dek rnd.payloadNonce
    (streamEncFrom rnd.dek rnd.payloadNonce 0 (encodeJson payload))) = true :=
    allBytes_aesGcmTag _ _ _
  have hwctb : allBytes (streamEncFrom mkA rnd.dekWrapNonce 0 rnd.dek) = true :=
    allBytes_streamEncFrom _ _ _ _
  have hwctl : (streamEncFrom mkA rnd.dekWrapNonce 0 rnd.dek).length = 32 := by
    rw [streamEncFrom_length, hdl]
  have hwtagb : allBytes (aesGcmTag mkA rnd.dekWrapNonce
    (streamEncFrom mkA rnd.dekWrapNonce 0 rnd.dek)) = true := allBytes_aesGcmTag _ _ _
  have hwctdec : hexDecode
      (sealedRecord mkA rnd newId timestamp ownerTag payload).dek_wrapped
      = streamEncFrom mkA rnd.dekWrapNonce 0 rnd.dek := by
    simp only [sealedRecord, mkRecord]
    exact hexDecode_hexEncode hwctb
  have hwtagdec : hexDecode
      (sealedRecord mkA rnd newId timestamp ownerTag payload).dek_wrap_tag
      = aesGcmTag mkA rnd.dekWrapNonce (streamEncFrom mkA rnd.dekWrapNonce 0 rnd.dek) := by
    simp only [sealedRecord, mkRecord]
    exact hexDecode_hexEncode hwtagb
  refine ⟨sealedRecord mkA rnd newId timestamp ownerTag payload,
    encryptEnvelope_ok hA rnd newId timestamp ownerTag payload, ?_, ?_, ?_⟩
  · rw [show sealedRecord mkA rnd newId timestamp ownerTag payload =
      mkRecord newId ownerTag timestamp rnd.payloadNonce
        (streamEncFrom rnd.dek rnd.payloadNonce 0 (encodeJson payload))
        (aesGcmTag rnd.dek rnd.payloadNonce
          (streamEncFrom rnd.dek rnd.payloadNonce 0 (encodeJson payload)))
        rnd.dekWrapNonce (streamEncFrom mkA rnd.dekWrapNonce 0 rnd.dek)
        (aesGcmTag mkA rnd.dekWrapNonce (streamEncFrom mkA rnd.dekWrapNonce 0 rnd.dek))
        algAes256Gcm 1 from rfl]
    exact decryptEnvelope_mkRecord_unwrap_fail hB hpl hpb hctne hctb
      (aesGcmTag_length _ _ _) htagb hwl hwb hwctl hwctb (aesGcmTag_length _ _ _)
      hwtagb (aesGcmDecrypt_ne_tag htagne.symm)
  · intro i v hi hv hne
    rw [hwctdec] at hi hne ⊢
    have hrec : setField (sealedRecord mkA rnd newId timestamp ownerTag payload)
        .dekWrappedF (hexEncode
          ((streamEncFrom mkA rnd.dekWrapNonce 0 rnd.dek).set i v)) =
        mkRecord newId ownerTag timestamp rnd.payloadNonce
          (streamEncFrom rnd.dek rnd.payloadNonce 0 (encodeJson payload))
          (aesGcmTag rnd.dek rnd.payloadNonce
            (streamEncFrom rnd.dek rnd.payloadNonce 0 (encodeJson payload)))
          rnd.dekWrapNonce ((streamEncFrom mkA rnd.dekWrapNonce 0 rnd.dek).set i v)
          (aesGcmTag mkA rnd.dekWrapNonce (streamEncFrom mkA rnd.dekWrapNonce 0 rnd.dek))
          algAes256Gcm 1 := by
      simp [setField, sealedRecord, mkRecord]
    rw [hrec]
    have hwctl' : ((streamEncFrom mkA rnd.dekWrapNonce 0 rnd.dek).set i v).length = 32 := by
      rw [List.length_set, streamEncFrom_length, hdl]
    refine decryptEnvelope_mkRecord_unwrap_fail hA hpl hpb hctne hctb
      (aesGcmTag_length _ _ _) htagb hwl hwb hwctl' (allBytes_set hv hwctb)
      (aesGcmTag_length _ _ _) hwtagb ?_
    apply aesGcmDecrypt_ne_tag
    intro hcontra
    exact aesGcmTag_set_ct_ne hi hv hwctb hne hcontra.symm
  · intro j v hj hv hne
    rw [hwtagdec] at hj hne ⊢
    have hrec : setField (sealedRecord mkA rnd newId timestamp ownerTag payload)
        .dekWrapTagF (hexEncode
          ((aesGcmTag mkA rnd.dekWrapNonce
            (streamEncFrom mkA rnd.dekWrapNonce 0 rnd.dek)).set j v)) =
        mkRecord newId ownerTag timestamp rnd.payloadNonce
          (streamEncFrom rnd.dek rnd.payloadNonce 0 (encodeJson payload))
          (aesGcmTag rnd.dek rnd.payloadNonce
            (streamEncFrom rnd.dek rnd.payloadNonce 0 (encodeJson payload)))
          rnd.dekWrapNonce (streamEncFrom mkA rnd.dekWrapNonce 0 rnd.dek)
          ((aesGcmTag mkA rnd.dekWrapNonce
            (streamEncFrom mkA rnd.dekWrapNonce 0 rnd.dek)).set j v)
          algAes256Gcm 1 := by
      simp [setField, sealedRecord, mkRecord]
    rw [hrec]
    have hwtagl' : ((aesGcmTag mkA rnd.dekWrapNonce
        (streamEncFrom mkA rnd.dekWrapNonce 0 rnd.dek)).set j v).length = 16 := by
      rw [List.length_set, aesGcmTag_length]
    refine decryptEnvelope_mkRecord_unwrap_fail hA hpl hpb hctne hctb
      (aesGcmTag_length _ _ _) htagb hwl hwb hwctl hwctb hwtagl'
      (allBytes_set hv hwtagb) ?_
    apply aesGcmDecrypt_ne_tag
    exact set_ne_self hj hne

/-- C3 witness: concrete keys A and B differing in their first byte; the
wrap-tag recomputed under B differs, wrong-key open fails with the
unwrap error, and so do single-byte wrap tamperings. -/
theorem c3_wrong_key_or_wrap_tamper_witness :
    ∃ record, encryptEnvelope envA rndA ("id-3") ("ts-3") ("party_3") (.obj []) =
        .ok record ∧
      decryptEnvelope envB record = .error .dekUnwrapFailed ∧
      (∀ i v, i < (hexDecode record.dek_wrapped).length → v < 256 →
        v ≠ (hexDecode record.dek_wrapped).getD i 0 →
        decryptEnvelope envA (setField record .dekWrappedF
          (hexEncode ((hexDecode record.dek_wrapped).set i v))) =
          .error .dekUnwrapFailed) ∧
      (∀ j v, j < (hexDecode record.dek_wrap_tag).length → v < 256 →
        v ≠ (hexDecode record.dek_wrap_tag).getD j 0 →
        decryptEnvelope envA (setField record .dekWrapTagF
          (hexEncode ((hexDecode record.dek_wrap_tag).set j v))) =
          .error .dekUnwrapFailed) :=
  c3_wrong_key_or_wrap_tamper envA envB keyA keyB rndA ("id-3") ("ts-3") ("party_3")
    (.obj []) (by decide) (by decide) (by decide) (by decide) (by decide)

/-- C8: two seal calls on the same owner tag and payload whose
independent random draws are distinct — different payload nonces,
different wrap nonces, and keystreams that differ somewhere within the
ciphertext length — produce records with different `payload_nonce`,
different `dek_wrap_nonce` and different `payload_ct`, and both records
still open to the original payload. -/
theorem c8_nondeterministic_seal (env : Option String) (mk : List Nat)
    (rnd1 rnd2 : SealRandomness) (id1 ts1 id2 ts2 ownerTag : String)
    (payload : JsonVal) (henv : getMasterKey env = .ok mk)
    (h1 : goodRand rnd1 = true) (h2 : goodRand rnd2 = true)
    (hpn : rnd1.payloadNonce ≠ rnd2.payloadNonce)
    (hwn : rnd1.dekWrapNonce ≠ rnd2.dekWrapNonce)
    (hks : ∃ i, i < (encodeJson payload).length ∧
      ksByte rnd1.dek rnd1.payloadNonce i ≠ ksByte rnd2.dek rnd2.payloadNonce i) :
    ∃ r1 r2,
      encryptEnvelope env rnd1 id1 ts1 ownerTag payload = .ok r1 ∧
      encryptEnvelope env rnd2 id2 ts2 ownerTag payload = .ok r2 ∧
      r1.payload_nonce ≠ r2.payload_nonce ∧
      r1.dek_wrap_nonce ≠ r2.dek_wrap_nonce ∧
      r1.payload_ct ≠ r2.payload_ct ∧
      decryptEnvelope env r1 = .ok payload ∧
      decryptEnvelope env r2 = .ok payload := by
  obtain ⟨hdl1, hdb1, hpl1, hpb1, hwl1, hwb1⟩ := goodRand_spec h1
  obtain ⟨hdl2, hdb2, hpl2, hpb2, hwl2, hwb2⟩ := goodRand_spec h2
  refine ⟨sealedRecord mk rnd1 id1 ts1 ownerTag payload,
    sealedRecord mk rnd2 id2 ts2 ownerTag payload,
    encryptEnvelope_ok henv rnd1 id1 ts1 ownerTag payload,
    encryptEnvelope_ok henv rnd2 id2 ts2 ownerTag payload, ?_, ?_, ?_,
    decryptEnvelope_sealedRecord henv h1 id1 ts1 ownerTag payload,
    decryptEnvelope_sealedRecord henv h2 id2 ts2 ownerTag payload⟩
  · show hexEncode rnd1.payloadNonce ≠ hexEncode rnd2.payloadNonce
    intro h
    exact hpn (hexEncode_inj hpb1 hpb2 h)
  · show hexEncode rnd1.dekWrapNonce ≠ hexEncode rnd2.dekWrapNonce
    intro h
    exact hwn (hexEncode_inj hwb1 hwb2 h)
  · show hexEncode (streamEncFrom rnd1.dek rnd1.payloadNonce 0 (encodeJson payload)) ≠
      hexEncode (streamEncFrom rnd2.dek rnd2.payloadNonce 0 (encodeJson payload))
    intro h
    have hcteq := hexEncode_inj (allBytes_streamEncFrom _ _ _ _)
      (allBytes_streamEncFrom _ _ _ _) h
    obtain ⟨i, hilt, hksne⟩ := hks
    have e1 := streamEncFrom_getD rnd1.dek rnd1.payloadNonce 0 i (encodeJson payload) hilt
    have e2 := streamEncFrom_getD rnd2.dek rnd2.payloadNonce 0 i (encodeJson payload) hilt
    rw [Nat.zero_add] at e1 e2
    have hgd := congrArg (fun l => l.getD i 0) hcteq
    simp only at hgd
    rw [e1, e2] at hgd
    have hk1 : ksByte rnd1.dek rnd1.payloadNonce i < 256 := Nat.mod_lt _ (by omega)
    have hk2 : ksByte rnd2.dek rnd2.payloadNonce i < 256 := Nat.mod_lt _ (by omega)
    exact hksne (by omega)

/-- C8 witness: two concrete independent draws on the empty-object
payload; the keystreams differ already at byte 0. -/
theorem c8_nondeterministic_seal_witness :
    ∃ r1 r2,
      encryptEnvelope envA rndA ("id-8a") ("ts-8a") ("party_8") (.obj []) = .ok r1 ∧
      encryptEnvelope envA rndB ("id-8b") ("ts-8b") ("party_8") (.obj []) = .ok r2 ∧
      r1.payload_nonce ≠ r2.payload_nonce ∧
      r1.dek_wrap_nonce ≠ r2.dek_wrap_nonce ∧
      r1.payload_ct ≠ r2.payload_ct ∧
      decryptEnvelope envA r1 = .ok (.obj []) ∧
      decryptEnvelope envA r2 = .ok (.obj []) :=
  c8_nondeterministic_seal envA keyA rndA rndB ("id-8a") ("ts-8a") ("id-8b") ("ts-8b")
    ("party_8") (.obj []) (by decide) (by decide) (by decide) (by decide) (by decide)
    ⟨0, by simp [encodeJson], by decide⟩

/-- C9: a sealed record remains accepted after one extra hex character
is appended to any one of its six hex fields: the hex-alphabet test
allows odd-length strings and decoding drops the trailing unpaired
character, so the decoded bytes are unchanged and open still returns
the original payload. -/
theorem c9_extra_hex_char_accepted (env : Option String) (mk : List Nat)
    (rnd : SealRandomness) (newId timestamp ownerTag : String) (payload : JsonVal)
    (henv : getMasterKey env = .ok mk) (hrnd : goodRand rnd = true) :
    ∃ record, encryptEnvelope env rnd newId timestamp ownerTag payload = .ok record ∧
      ∀ (f : RecordField) (c : Char), isHexChar c = true →
        decryptEnvelope env (setField record f ((getField record f).push c)) =
          .ok payload := by
  obtain ⟨hdl, hdb, hpl, hpb, hwl, hwb⟩ := goodRand_spec hrnd
  refine ⟨sealedRecord mk rnd newId timestamp ownerTag payload,
    encryptEnvelope_ok henv rnd newId timestamp ownerTag payload, ?_⟩
  intro f c hc
  have hopen := decryptEnvelope_sealedRecord henv hrnd newId timestamp ownerTag payload
  have hpnne : rnd.payloadNonce ≠ [] := by
    intro h
    rw [h] at hpl
    simp at hpl
  have hwnne : rnd.dekWrapNonce ≠ [] := by
    intro h
    rw [h] at hwl
    simp at hwl
  have hctne := streamEncFrom_ne_nil rnd.dek rnd.payloadNonce
    (encodeJson_ne_nil payload)
  have hwctne : streamEncFrom mk rnd.dekWrapNonce 0 rnd.dek ≠ [] := by
    intro h
    have hlen := streamEncFrom_length mk rnd.dekWrapNonce 0 rnd.dek
    rw [h, hdl] at hlen
    simp at hlen
  have hptagne : aesGcmTag rnd.dek rnd.payloadNonce
      (streamEncFrom rnd.dek rnd.payloadNonce 0 (encodeJson payload)) ≠ [] := by
    intro h
    have hlen := aesGcmTag_length rnd.dek rnd.payloadNonce
      (streamEncFrom rnd.dek rnd.payloadNonce 0 (encodeJson payload))
    rw [h] at hlen
    simp at hlen
  have hwtagne : aesGcmTag mk rnd.dekWrapNonce
      (streamEncFrom mk rnd.dekWrapNonce 0 rnd.dek) ≠ [] := by
    intro h
    have hlen := aesGcmTag_length mk rnd.dekWrapNonce
      (streamEncFrom mk rnd.dekWrapNonce 0 rnd.dek)
    rw [h] at hlen
    simp at hlen
  have hxpn := isHexString_hexEncode hpnne
  have hxct := isHexString_hexEncode hctne
  have hxptag := isHexString_hexEncode hptagne
  have hxwn := isHexString_hexEncode hwnne
  have hxwct := isHexString_hexEncode hwctne
  have hxwtag := isHexString_hexEncode hwtagne
  cases f <;>
    refine Eq.trans (decryptEnvelope_ext ?_ ?_ ?_ ?_ ?_ ?_ ?_ ?_ ?_ ?_ ?_ ?_) hopen <;>
    simp only [setField, sealedRecord, mkRecord, getField] <;>
    first
      | rfl
      | exact (isHexString_push hxpn hc).trans hxpn.symm
      | exact (isHexString_push hxct hc).trans hxct.symm
      | exact (isHexString_push hxptag hc).trans hxptag.symm
      | exact (isHexString_push hxwn hc).trans hxwn.symm
      | exact (isHexString_push hxwct hc).trans hxwct.symm
      | exact (isHexString_push hxwtag hc).trans hxwtag.symm
      | exact hexDecode_push (hexEncode_data_even _)

/-- C9 witness: appending a hex character to any field of a concrete
sealed record still opens to the empty object. -/
theorem c9_extra_hex_char_accepted_witness :
    ∃ record, encryptEnvelope envA rndA ("id-9") ("ts-9") ("party_9") (.obj []) =
        .ok record ∧
      ∀ (f : RecordField) (c : Char), isHexChar c = true →
        decryptEnvelope envA (setField record f ((getField record f).push c)) =
          .ok (.obj []) :=
  c9_extra_hex_char_accepted envA keyA rndA ("id-9") ("ts-9") ("party_9") (.obj [])
    (by decide) (by decide)
